import Mathlib

/-!
Shallow embedding of the BJ-Tracker blackjack EV core
(src/fresh_blackjack_cpp/cpp_src and src/cpp_src), followed by theorems
settling the specification claims.

Modelling conventions:
* C++ `int` is modelled as `ℤ`; C++ `double` is modelled as `ℚ` (the exact
  values the floating computation approximates; the spec tolerances absorb
  rounding).  C++ `uint64_t` arithmetic is modelled as `ℤ` reduced `% 2^64`.
* `std::vector<int>` is `List ℤ`; the 13-slot card array is a 13-element `List ℤ`.
* The bookkeeping-only `distribution` arrays of the probability structs are
  omitted: no claim and no modelled code path reads them.
* The dealer recursion of `recursive_dealer_engine.cpp` terminates because
  every branch removes one card from a deck slot that was positive; it is
  realised with a fuel parameter initialised to (number of physically
  present cards) + 1, which is strictly larger than any possible draw depth,
  so the fuel-0 default branch is unreachable from `calculate_recursive`.
-/

namespace BJTracker

set_option maxRecDepth 8000

/-- RulesConfig (bjlogic_core.hpp).  Only the fields read by the modelled
operations are kept; the remaining C++ fields (double_after_split,
surrender flags, ...) are never consulted by the code under study. -/
structure RulesConfig where
  num_decks : ℤ := 6
  dealer_hits_soft_17 : Bool := true
  blackjack_payout : ℚ := 3/2
deriving DecidableEq

/-- HandData (bjlogic_core.hpp): result of hand evaluation. -/
structure HandData where
  cards : List ℤ := []
  total : ℤ := 0
  is_soft : Bool := false
  can_split : Bool := false
  is_blackjack : Bool := false
  is_busted : Bool := false
deriving DecidableEq

/-- cards[0] == cards[1] on a two-element list (the pair test of
calculate_hand_value; the indexing is guarded by the size == 2 check). -/
def pairEq : List ℤ → Bool
  | a :: b :: _ => a == b
  | _ => false

/-- The ace-promotion loop of BJLogicCore::calculate_hand_value
(bjlogic_core.cpp lines 36-41):
while (aces_as_eleven < aces and soft_total + 10 <= 21) promote one ace.
Returns (final soft_total, number of aces promoted to 11). -/
def acesPromote : ℕ → ℤ → ℤ × ℕ
  | 0, s => (s, 0)
  | a + 1, s =>
    if s + 10 ≤ 21 then
      let r := acesPromote a (s + 10)
      (r.1, r.2 + 1)
    else (s, 0)

namespace BJLogicCore

/-- BJLogicCore::calculate_hand_value (fresh_blackjack_cpp/cpp_src/bjlogic_core.cpp
lines 17-50).  Sums ranks with every ace as 1, counts aces, greedily promotes
aces to 11 while the running total stays within 21, then derives the flags.
An empty input returns the default-constructed HandData (with cards set). -/
def calculate_hand_value (cards : List ℤ) : HandData :=
  if cards = [] then { cards := cards }
  else
    let hard_total := cards.sum
    let aces := cards.count 1
    let p := acesPromote aces hard_total
    let soft_total := p.1
    let aces_as_eleven := p.2
    { cards := cards
      total := soft_total
      is_soft := decide (0 < aces_as_eleven) && decide (soft_total < 21)
      is_busted := decide (21 < soft_total)
      is_blackjack := decide (cards.length = 2) && decide (soft_total = 21)
      can_split := decide (cards.length = 2) && pairEq cards }

end BJLogicCore

/-- get_card_value (legacy src/cpp_src/bjlogic_core.cpp lines 8-14).
The std::stoi fallback is modelled for the digit rank strings the callers
supply; the claims only exercise ranks 1-10. -/
def legacy_get_card_value (rank : String) : ℤ :=
  if rank = "J" ∨ rank = "Q" ∨ rank = "K" ∨ rank = "T" ∨ rank = "10" then 10
  else if rank = "A" then 11
  else if rank = "2" then 2 else if rank = "3" then 3 else if rank = "4" then 4
  else if rank = "5" then 5 else if rank = "6" then 6 else if rank = "7" then 7
  else if rank = "8" then 8 else if rank = "9" then 9 else 0

/-- The ace demotion loop of the legacy hand evaluator
(src/cpp_src/bjlogic_core.cpp lines 27-30):
while (total > 21 and aces > 0) demote one ace from 11 to 1.
Returns (final total, aces still counted as 11). -/
def legacyDemote : ℕ → ℤ → ℤ × ℕ
  | 0, t => (t, 0)
  | a + 1, t =>
    if 21 < t then legacyDemote a (t - 10)
    else (t, a + 1)

/-- calculate_hand_value (legacy src/cpp_src/bjlogic_core.cpp lines 16-33).
Aces enter at 11 and are demoted while the total busts; note the final soft
test uses total <= 21, unlike the fresh engine which requires total < 21. -/
def legacy_calculate_hand_value (ranks : List String) : ℤ × Bool :=
  let total := (ranks.map fun r => if r = "A" then 11 else legacy_get_card_value r).sum
  let aces := ranks.count "A"
  let d := legacyDemote aces total
  (d.1, decide (0 < d.2) && decide (d.1 ≤ 21))

/-- DeckComposition (recursive_dealer_engine.hpp lines 59-122).
The C++ std::array<int, 13> is modelled as a 13-element list:
slot 0 = Ace, slots 1-8 = ranks 2-9, slots 9-12 = 10/J/Q/K. -/
structure DeckComposition where
  cards : List ℤ
  total_cards : ℤ
deriving DecidableEq

/-- Zero-based array read xs[i] on the slot list (out-of-range reads never
occur in the modelled code; they default to 0). -/
def slotAux : List ℤ → ℤ → ℤ
  | [], _ => 0
  | c :: l, i => if i = 0 then c else slotAux l (i - 1)

/-- Zero-based array write xs[i] := x on the slot list (out-of-range writes
never occur in the modelled code; they are dropped). -/
def setAux : List ℤ → ℤ → ℤ → List ℤ
  | [], _, _ => []
  | c :: l, i, x => if i = 0 then x :: l else c :: setAux l (i - 1) x

namespace DeckComposition

/-- The DeckComposition(num_decks) constructor: 4 x num_decks per slot. -/
def fresh (num_decks : ℤ) : DeckComposition :=
  { cards := List.replicate 13 (4 * num_decks), total_cards := 52 * num_decks }

/-- Array read cards[i]. -/
def slot (d : DeckComposition) (i : ℤ) : ℤ := slotAux d.cards i

/-- cards[i]--; total_cards--; (helper for remove_card). -/
def decSlot (d : DeckComposition) (i : ℤ) : DeckComposition :=
  { cards := setAux d.cards i (d.slot i - 1), total_cards := d.total_cards - 1 }

/-- DeckComposition::remove_card (recursive_dealer_engine.hpp lines 74-93).
Rank 10 removes the first available ten-value slot 9-12; ranks 1-9 decrement
slot rank-1 when positive; anything else (or an empty slot) is a no-op. -/
def remove_card (d : DeckComposition) (rank : ℤ) : DeckComposition :=
  if 1 ≤ rank ∧ rank ≤ 10 then
    if rank = 10 then
      if 0 < d.slot 9 then d.decSlot 9
      else if 0 < d.slot 10 then d.decSlot 10
      else if 0 < d.slot 11 then d.decSlot 11
      else if 0 < d.slot 12 then d.decSlot 12
      else d
    else
      if 0 < d.slot (rank - 1) then d.decSlot (rank - 1) else d
  else d

/-- DeckComposition::get_ten_cards. -/
def get_ten_cards (d : DeckComposition) : ℤ :=
  d.slot 9 + d.slot 10 + d.slot 11 + d.slot 12

/-- DeckComposition::get_cards_for_rank (recursive_dealer_engine.hpp
lines 101-106). -/
def get_cards_for_rank (d : DeckComposition) (rank : ℤ) : ℤ :=
  if rank = 1 then d.slot 0
  else if 2 ≤ rank ∧ rank ≤ 9 then d.slot (rank - 1)
  else if rank = 10 then d.get_ten_cards
  else 0

/-- DeckComposition::get_probability (recursive_dealer_engine.hpp
lines 109-112): guarded exact draw probability; returns 0.0 on a deck whose
total is not positive. -/
def get_probability (d : DeckComposition) (rank : ℤ) : ℚ :=
  if d.total_cards ≤ 0 then 0
  else (d.get_cards_for_rank rank : ℚ) / (d.total_cards : ℚ)

/-- DeckComposition::get_cache_key (recursive_dealer_engine.hpp
lines 115-121): base-53 rolling hash of the 13 slots in uint64 arithmetic. -/
def get_cache_key (d : DeckComposition) : ℤ :=
  d.cards.foldl (fun k c => (k * 53 + c) % (2 ^ 64)) 0

/-- The deck invariant stated in the spec (section 3): 13 slots, the stored
total matches the slot sum, and no slot is negative. -/
def Inv (d : DeckComposition) : Prop :=
  d.cards.length = 13 ∧ d.total_cards = d.cards.sum ∧ ∀ c ∈ d.cards, 0 ≤ c

instance (d : DeckComposition) : Decidable d.Inv := by
  unfold Inv; infer_instance

end DeckComposition

/-- ExactDealerProbs (recursive_dealer_engine.hpp lines 17-57), without the
bookkeeping-only distribution array.  The default constructor zeroes every
probability. -/
structure ExactDealerProbs where
  prob_17 : ℚ := 0
  prob_18 : ℚ := 0
  prob_19 : ℚ := 0
  prob_20 : ℚ := 0
  prob_21 : ℚ := 0
  prob_bust : ℚ := 0
  prob_blackjack : ℚ := 0
  recursive_calls : ℤ := 0
  from_cache : Bool := false
deriving DecidableEq

/-- ExactDealerProbs::get_total_probability. -/
def ExactDealerProbs.get_total_probability (p : ExactDealerProbs) : ℚ :=
  p.prob_17 + p.prob_18 + p.prob_19 + p.prob_20 + p.prob_21 +
    p.prob_bust + p.prob_blackjack

namespace RecursiveDealerEngine

/-- RecursiveDealerEngine::calculate_dealer_total_and_soft
(recursive_dealer_engine.cpp lines 172-192): sum with aces as 1, then count
a single ace as 11 when that stays within 21. -/
def calculate_dealer_total_and_soft (hand : List ℤ) : ℤ × Bool :=
  let total := hand.sum
  let aces := hand.count 1
  if 0 < aces ∧ total + 10 ≤ 21 then (total + 10, true) else (total, false)

/-- RecursiveDealerEngine::dealer_must_hit (recursive_dealer_engine.cpp
lines 194-205). -/
def dealer_must_hit (total : ℤ) (is_soft : Bool) (rules : RulesConfig) : Bool :=
  if total < 17 then true
  else if 17 < total then false
  else if total = 17 ∧ is_soft = true ∧ rules.dealer_hits_soft_17 = true then true
  else false

/-- The rank loop bounds of the dealer recursion (for rank = 1 .. 10). -/
def rankList : List ℤ := [1, 2, 3, 4, 5, 6, 7, 8, 9, 10]

/-- Fuel bound for the dealer recursion: one more than the number of
physically present cards, which strictly bounds the draw depth. -/
def deckFuel (d : DeckComposition) : ℕ :=
  (d.cards.map Int.toNat).sum + 1

/-- Accumulate one weighted branch into the running result
(recursive_dealer_engine.cpp lines 140-150). -/
def addBranch (acc : ExactDealerProbs) (card_prob : ℚ)
    (branch : ExactDealerProbs) : ExactDealerProbs :=
  { prob_17 := acc.prob_17 + card_prob * branch.prob_17
    prob_18 := acc.prob_18 + card_prob * branch.prob_18
    prob_19 := acc.prob_19 + card_prob * branch.prob_19
    prob_20 := acc.prob_20 + card_prob * branch.prob_20
    prob_21 := acc.prob_21 + card_prob * branch.prob_21
    prob_bust := acc.prob_bust + card_prob * branch.prob_bust
    prob_blackjack := acc.prob_blackjack + card_prob * branch.prob_blackjack
    recursive_calls := acc.recursive_calls + branch.recursive_calls
    from_cache := acc.from_cache }

/-- Scale every probability bucket (the defensive renormalisation of
recursive_dealer_engine.cpp lines 154-163). -/
def scaleProbs (p : ExactDealerProbs) (norm : ℚ) : ExactDealerProbs :=
  { p with
    prob_17 := p.prob_17 * norm
    prob_18 := p.prob_18 * norm
    prob_19 := p.prob_19 * norm
    prob_20 := p.prob_20 * norm
    prob_21 := p.prob_21 * norm
    prob_bust := p.prob_bust * norm
    prob_blackjack := p.prob_blackjack * norm }

/-- RecursiveDealerEngine::calculate_recursive (recursive_dealer_engine.cpp
lines 83-166), fuelled.  A fuel of 0 returns the default result, a branch
that is unreachable when starting from `deckFuel` of the current deck. -/
def calcRec (rules : RulesConfig) : ℕ → List ℤ → DeckComposition → ExactDealerProbs
  | 0, _, _ => {}
  | fuel + 1, dealer_hand, deck =>
    let ts := calculate_dealer_total_and_soft dealer_hand
    if 21 < ts.1 then { prob_bust := 1, recursive_calls := 1 }
    else if ¬ dealer_must_hit ts.1 ts.2 rules then
      if ts.1 = 17 then { prob_17 := 1, recursive_calls := 1 }
      else if ts.1 = 18 then { prob_18 := 1, recursive_calls := 1 }
      else if ts.1 = 19 then { prob_19 := 1, recursive_calls := 1 }
      else if ts.1 = 20 then { prob_20 := 1, recursive_calls := 1 }
      else if ts.1 = 21 then { prob_21 := 1, recursive_calls := 1 }
      else { recursive_calls := 1 }
    else
      let step := fun (acc : ExactDealerProbs × ℚ) (rank : ℤ) =>
        if deck.get_cards_for_rank rank ≤ 0 then acc
        else
          let card_prob := deck.get_probability rank
          let branch := calcRec rules fuel (dealer_hand ++ [rank]) (deck.remove_card rank)
          (addBranch acc.1 card_prob branch, acc.2 + card_prob)
      let res := rankList.foldl step ({ recursive_calls := 1 }, 0)
      if 0 < res.2 ∧ 1 / 1000000 < |res.2 - 1| then scaleProbs res.1 (1 / res.2)
      else res.1

/-- RecursiveDealerEngine::calculate_recursive at its natural fuel. -/
def calculate_recursive (dealer_hand : List ℤ) (deck : DeckComposition)
    (rules : RulesConfig) : ExactDealerProbs :=
  calcRec rules (deckFuel deck) dealer_hand deck

/-- The cache-miss computation of
RecursiveDealerEngine::calculate_exact_probabilities
(recursive_dealer_engine.cpp lines 35-76), taking the working deck (the
caller-supplied deck with the upcard already removed). -/
def computeExactProbs (dealer_upcard : ℤ) (working_deck : DeckComposition)
    (rules : RulesConfig) : ExactDealerProbs :=
  let dealer_hand : List ℤ := [dealer_upcard]
  if dealer_upcard = 1 ∨ dealer_upcard = 10 then
    let needed_for_bj : ℤ := if dealer_upcard = 1 then 10 else 1
    let bj_cards := working_deck.get_cards_for_rank needed_for_bj
    if 0 < working_deck.total_cards then
      let prob_blackjack : ℚ := (bj_cards : ℚ) / (working_deck.total_cards : ℚ)
      if prob_blackjack < 1 then
        let no_bj_deck := working_deck.remove_card needed_for_bj
        let non_bj := calculate_recursive dealer_hand no_bj_deck rules
        let scale_factor := 1 - prob_blackjack
        { prob_blackjack := prob_blackjack
          prob_17 := non_bj.prob_17 * scale_factor
          prob_18 := non_bj.prob_18 * scale_factor
          prob_19 := non_bj.prob_19 * scale_factor
          prob_20 := non_bj.prob_20 * scale_factor
          prob_21 := non_bj.prob_21 * scale_factor
          prob_bust := non_bj.prob_bust * scale_factor
          recursive_calls := non_bj.recursive_calls + 1 }
      else { prob_blackjack := prob_blackjack }
    else {}
  else
    calculate_recursive dealer_hand working_deck rules

/-- RecursiveDealerEngine::generate_cache_key (recursive_dealer_engine.cpp
lines 331-346): deck hash, then dealer hand base 13, then the soft-17 flag,
all in uint64 arithmetic. -/
def generate_cache_key (dealer_hand : List ℤ) (deck : DeckComposition)
    (rules : RulesConfig) : ℤ :=
  let key := deck.get_cache_key
  let key := dealer_hand.foldl (fun k card => (k * 13 + card) % (2 ^ 64)) key
  (key * 2 + (if rules.dealer_hits_soft_17 then 1 else 0)) % (2 ^ 64)

/-- The mutable state of a RecursiveDealerEngine instance: the memoization
map (association list, most recent insertion first) and the hit counters. -/
structure EngineState where
  cache : List (ℤ × ExactDealerProbs) := []
  total_cache_hits : ℤ := 0
  total_cache_misses : ℤ := 0

/-- The fresh engine (RecursiveDealerEngine constructor). -/
def emptyState : EngineState := {}

/-- RecursiveDealerEngine::calculate_exact_probabilities
(recursive_dealer_engine.cpp lines 13-81): remove the upcard from a copy of
the caller's deck, probe the cache, and on a miss run the conditioned
computation and memoize it. -/
def calculate_exact_probabilities (dealer_upcard : ℤ) (deck : DeckComposition)
    (rules : RulesConfig) (st : EngineState) : ExactDealerProbs × EngineState :=
  let dealer_hand : List ℤ := [dealer_upcard]
  let working_deck := deck.remove_card dealer_upcard
  let cache_key := generate_cache_key dealer_hand working_deck rules
  match st.cache.lookup cache_key with
  | some cached =>
    ({ cached with from_cache := true },
     { st with total_cache_hits := st.total_cache_hits + 1 })
  | none =>
    let result := computeExactProbs dealer_upcard working_deck rules
    (result,
     { st with
        cache := (cache_key, result) :: st.cache
        total_cache_misses := st.total_cache_misses + 1 })

/-- RecursiveDealerEngine::calculate_stand_ev_from_exact_probs
(recursive_dealer_engine.cpp lines 250-317). -/
def calculate_stand_ev_from_exact_probs (player_hand : List ℤ)
    (dealer_probs : ExactDealerProbs) (rules : RulesConfig) : ℚ :=
  let player_data := BJLogicCore.calculate_hand_value player_hand
  if player_data.is_busted then -1
  else
    let player_total := player_data.total
    let ev : ℚ := dealer_probs.prob_bust * 1
    let ev := if 17 < player_total then ev + dealer_probs.prob_17 * 1
      else if player_total < 17 then ev + dealer_probs.prob_17 * (-1) else ev
    let ev := if 18 < player_total then ev + dealer_probs.prob_18 * 1
      else if player_total < 18 then ev + dealer_probs.prob_18 * (-1) else ev
    let ev := if 19 < player_total then ev + dealer_probs.prob_19 * 1
      else if player_total < 19 then ev + dealer_probs.prob_19 * (-1) else ev
    let ev := if 20 < player_total then ev + dealer_probs.prob_20 * 1
      else if player_total < 20 then ev + dealer_probs.prob_20 * (-1) else ev
    let ev := if 21 < player_total then ev + dealer_probs.prob_21 * 1
      else if player_total < 21 then ev + dealer_probs.prob_21 * (-1) else ev
    if player_data.is_blackjack = true ∧ player_hand.length = 2 then
      let ev := if 0 < dealer_probs.prob_blackjack
        then ev + dealer_probs.prob_blackjack * 0 else ev
      let non_bj_dealer_outcomes := dealer_probs.prob_17 + dealer_probs.prob_18 +
        dealer_probs.prob_19 + dealer_probs.prob_20 +
        dealer_probs.prob_21 + dealer_probs.prob_bust
      ev + non_bj_dealer_outcomes * rules.blackjack_payout
    else if player_total = 21 ∧ 2 < player_hand.length then
      if 0 < dealer_probs.prob_blackjack
        then ev + dealer_probs.prob_blackjack * (-1) else ev
    else
      if 0 < dealer_probs.prob_blackjack
        then ev + dealer_probs.prob_blackjack * (-1) else ev

end RecursiveDealerEngine

/-- DealerProbabilities (advanced_ev_engine.hpp lines 64-101), without the
bookkeeping-only distribution array. -/
structure DealerProbabilities where
  bust_prob : ℚ := 0
  blackjack_prob : ℚ := 0
  total_17_prob : ℚ := 0
  total_18_prob : ℚ := 0
  total_19_prob : ℚ := 0
  total_20_prob : ℚ := 0
  total_21_prob : ℚ := 0
  calculations_performed : ℤ := 0
  from_cache : Bool := false
deriving DecidableEq

/-- Sum of the seven outcome buckets of a DealerProbabilities value (the
sum the spec requires to be 1.0 within 1e-6). -/
def DealerProbabilities.bucket_sum (p : DealerProbabilities) : ℚ :=
  p.total_17_prob + p.total_18_prob + p.total_19_prob + p.total_20_prob +
    p.total_21_prob + p.bust_prob + p.blackjack_prob

namespace AdvancedEVEngine

/-- The S17 switch of AdvancedEVEngine::calculate_dealer_probabilities_fresh_deck
(advanced_ev_engine.cpp lines 195-280): precomputed per-upcard constants.
Upcards outside 1-10 fall through the switch and leave the default zeros. -/
def fresh_deck_s17_table (dealer_upcard : ℤ) : DealerProbabilities :=
  if dealer_upcard = 1 then
    { bust_prob := 1157/10000, blackjack_prob := 3077/10000,
      total_17_prob := 1292/10000, total_18_prob := 1292/10000,
      total_19_prob := 1292/10000, total_20_prob := 1292/10000,
      total_21_prob := 598/10000 }
  else if dealer_upcard = 2 then
    { bust_prob := 3519/10000, total_17_prob := 1387/10000,
      total_18_prob := 1315/10000, total_19_prob := 1315/10000,
      total_20_prob := 1315/10000, total_21_prob := 1149/10000 }
  else if dealer_upcard = 3 then
    { bust_prob := 3745/10000, total_17_prob := 1292/10000,
      total_18_prob := 1244/10000, total_19_prob := 1244/10000,
      total_20_prob := 1244/10000, total_21_prob := 1231/10000 }
  else if dealer_upcard = 4 then
    { bust_prob := 4019/10000, total_17_prob := 1198/10000,
      total_18_prob := 1173/10000, total_19_prob := 1173/10000,
      total_20_prob := 1173/10000, total_21_prob := 1264/10000 }
  else if dealer_upcard = 5 then
    { bust_prob := 4217/10000, total_17_prob := 1221/10000,
      total_18_prob := 1102/10000, total_19_prob := 1102/10000,
      total_20_prob := 1102/10000, total_21_prob := 1256/10000 }
  else if dealer_upcard = 6 then
    { bust_prob := 4217/10000, total_17_prob := 1667/10000,
      total_18_prob := 1058/10000, total_19_prob := 1058/10000,
      total_20_prob := 1058/10000, total_21_prob := 942/10000 }
  else if dealer_upcard = 7 then
    { bust_prob := 2618/10000, total_17_prob := 3692/10000,
      total_18_prob := 1385/10000, total_19_prob := 788/10000,
      total_20_prob := 788/10000, total_21_prob := 729/10000 }
  else if dealer_upcard = 8 then
    { bust_prob := 2383/10000, total_17_prob := 1292/10000,
      total_18_prob := 3594/10000, total_19_prob := 1292/10000,
      total_20_prob := 721/10000, total_21_prob := 718/10000 }
  else if dealer_upcard = 9 then
    { bust_prob := 2302/10000, total_17_prob := 1173/10000,
      total_18_prob := 1221/10000, total_19_prob := 3511/10000,
      total_20_prob := 1173/10000, total_21_prob := 620/10000 }
  else if dealer_upcard = 10 then
    { bust_prob := 2112/10000, blackjack_prob := 769/10000,
      total_17_prob := 1292/10000, total_18_prob := 1292/10000,
      total_19_prob := 1292/10000, total_20_prob := 3551/10000,
      total_21_prob := 0 }
  else {}

/-- The H17 Ace entry of the fresh-deck switch (advanced_ev_engine.cpp
lines 285-293). -/
def fresh_deck_h17_ace : DealerProbabilities :=
  { bust_prob := 1179/10000, blackjack_prob := 3077/10000,
    total_17_prob := 1248/10000, total_18_prob := 1305/10000,
    total_19_prob := 1305/10000, total_20_prob := 1305/10000,
    total_21_prob := 581/10000 }

/-- The finalisation of the fresh-deck fast path (advanced_ev_engine.cpp
lines 303-311), minus the omitted distribution array. -/
def finalizeFresh (p : DealerProbabilities) : DealerProbabilities :=
  { p with from_cache := false, calculations_performed := 1 }

/-- AdvancedEVEngine::calculate_dealer_probabilities_fresh_deck
(advanced_ev_engine.cpp lines 186-314).  Under H17 a non-Ace upcard
re-enters with an S17 rules copy, which lands in the S17 switch; that
single-step recursion is unfolded here. -/
def calculate_dealer_probabilities_fresh_deck (dealer_upcard : ℤ)
    (rules : RulesConfig) : DealerProbabilities :=
  if rules.dealer_hits_soft_17 = false then
    finalizeFresh (fresh_deck_s17_table dealer_upcard)
  else if dealer_upcard = 1 then
    finalizeFresh fresh_deck_h17_ace
  else
    finalizeFresh (fresh_deck_s17_table dealer_upcard)

/-- AdvancedEVEngine::is_fresh_deck (advanced_ev_engine.cpp lines 539-559).
expected_per_rank is total/52*4 in truncating int division. -/
def is_fresh_deck (deck : DeckComposition) : Bool :=
  let expected_per_rank := Int.tdiv deck.total_cards 52 * 4
  (deck.slot 0 == expected_per_rank) && (deck.slot 1 == expected_per_rank) &&
  (deck.slot 2 == expected_per_rank) && (deck.slot 3 == expected_per_rank) &&
  (deck.slot 4 == expected_per_rank) && (deck.slot 5 == expected_per_rank) &&
  (deck.slot 6 == expected_per_rank) && (deck.slot 7 == expected_per_rank) &&
  (deck.slot 8 == expected_per_rank) && (deck.get_ten_cards == expected_per_rank * 4)

end AdvancedEVEngine

/-- DeckState (bjlogic_core.hpp lines 35-47).  The std::map is modelled as a
total count function: the constructor seeds keys 1-10, the modelled
operations read and write only those keys, and a missing key behaves as
count 0 in every modelled read. -/
structure DeckState where
  num_decks : ℤ := 6
  cards_remaining : ℤ → ℤ
  total_cards : ℤ

namespace DeckState

/-- The DeckState(decks) constructor: ranks 1-9 at 4 per deck, rank 10
holding all 16 ten-value cards per deck. -/
def fresh (decks : ℤ) : DeckState :=
  { num_decks := decks
    cards_remaining := fun rank =>
      if 1 ≤ rank ∧ rank ≤ 9 then 4 * decks
      else if rank = 10 then 16 * decks
      else 0
    total_cards := 52 * decks }

/-- new_deck.cards_remaining[rank]--; new_deck.total_cards--; as performed by
the EV recursions (advanced_ev_engine.cpp lines 803-805). -/
def draw (deck : DeckState) (rank : ℤ) : DeckState :=
  { deck with
    cards_remaining := fun r =>
      if r = rank then deck.cards_remaining rank - 1 else deck.cards_remaining r
    total_cards := deck.total_cards - 1 }

/-- The deck-state invariant used when reasoning about the EV loops: counts
on the visited ranks 1-10 are nonnegative, the stored total is their sum,
and the deck is non-empty. -/
def Inv (deck : DeckState) : Prop :=
  (∀ r ∈ RecursiveDealerEngine.rankList, 0 ≤ deck.cards_remaining r) ∧
    deck.total_cards =
      (RecursiveDealerEngine.rankList.map deck.cards_remaining).sum ∧
    0 < deck.total_cards

instance (deck : DeckState) : Decidable deck.Inv := by
  unfold Inv; infer_instance

end DeckState

namespace RecursiveDealerEngine

/-- RecursiveDealerEngine::convert_from_deck_state
(recursive_dealer_engine.cpp lines 221-248): ranks 1-9 map to slots 0-8; the
rank-10 count is distributed over slots 9-12, count/4 each plus one extra for
the first count%4 slots; the total is the sum of the converted counts. -/
def convert_from_deck_state (deck_state : DeckState) : DeckComposition :=
  let c10 := deck_state.cards_remaining 10
  let per_slot := Int.tdiv c10 4
  let remainder := Int.tmod c10 4
  { cards :=
      [deck_state.cards_remaining 1, deck_state.cards_remaining 2,
       deck_state.cards_remaining 3, deck_state.cards_remaining 4,
       deck_state.cards_remaining 5, deck_state.cards_remaining 6,
       deck_state.cards_remaining 7, deck_state.cards_remaining 8,
       deck_state.cards_remaining 9,
       per_slot + (if 0 < remainder then 1 else 0),
       per_slot + (if 1 < remainder then 1 else 0),
       per_slot + (if 2 < remainder then 1 else 0),
       per_slot + (if 3 < remainder then 1 else 0)]
    total_cards := (rankList.map deck_state.cards_remaining).sum }

end RecursiveDealerEngine

namespace AdvancedEVEngine

/-- AdvancedEVEngine::calculate_stand_ev_recursive (advanced_ev_engine.cpp
lines 686-708): convert the DeckState, obtain the exact dealer distribution
from the recursive dealer engine, and score the stand EV.  The shared engine
cache reproduces the cold computation on a miss, so the call is modelled by
the cache-miss computation itself. -/
def calculate_stand_ev_recursive (player_hand : List ℤ) (dealer_upcard : ℤ)
    (deck : DeckState) (rules : RulesConfig) : ℚ :=
  let deck_comp := RecursiveDealerEngine.convert_from_deck_state deck
  let dealer_probs := RecursiveDealerEngine.computeExactProbs dealer_upcard
    (deck_comp.remove_card dealer_upcard) rules
  RecursiveDealerEngine.calculate_stand_ev_from_exact_probs
    player_hand dealer_probs rules

/-- AdvancedEVEngine::calculate_double_ev_recursive (advanced_ev_engine.cpp
lines 777-819): sentinel -2.0 unless the hand has exactly two cards;
otherwise one weighted draw, forced stand, doubled result, with the
defensive renormalisation of lines 814-816. -/
def calculate_double_ev_recursive (player_hand : List ℤ) (dealer_upcard : ℤ)
    (deck : DeckState) (rules : RulesConfig) : ℚ :=
  if player_hand.length ≠ 2 then -2
  else
    let step := fun (acc : ℚ × ℚ) (next_card_rank : ℤ) =>
      if deck.cards_remaining next_card_rank ≤ 0 then acc
      else
        let card_prob := (deck.cards_remaining next_card_rank : ℚ) /
          (deck.total_cards : ℚ)
        let card_value := if next_card_rank = 10 then (10 : ℤ) else next_card_rank
        let final_hand := player_hand ++ [card_value]
        let new_deck := deck.draw next_card_rank
        let hand_ev := calculate_stand_ev_recursive final_hand dealer_upcard
          new_deck rules
        (acc.1 + card_prob * (hand_ev * 2), acc.2 + card_prob)
    let res := RecursiveDealerEngine.rankList.foldl step (0, 0)
    if 0 < res.2 ∧ 1 / 1000 < |res.2 - 1| then res.1 / res.2 else res.1

end AdvancedEVEngine

/-!
Evaluation support: restatements of the recursive definitions whose
left-hand sides also match numeric literals, and pointwise access lemmas
for 13-slot literal decks.  These are proof infrastructure only; every
definition above is the modelled code.
-/

theorem acesPromote_unfold (a : ℕ) (s : ℤ) :
    acesPromote a s =
      if a = 0 then (s, 0)
      else if s + 10 ≤ 21 then
        ((acesPromote (a - 1) (s + 10)).1, (acesPromote (a - 1) (s + 10)).2 + 1)
      else (s, 0) := by
  cases a with
  | zero => rfl
  | succ n => simp [acesPromote]

theorem legacyDemote_unfold (a : ℕ) (t : ℤ) :
    legacyDemote a t =
      if a = 0 then (t, 0)
      else if 21 < t then legacyDemote (a - 1) (t - 10)
      else (t, a) := by
  cases a with
  | zero => rfl
  | succ n => simp [legacyDemote]

namespace RecursiveDealerEngine

theorem calcRec_unfold (rules : RulesConfig) (fuel : ℕ) (dealer_hand : List ℤ)
    (deck : DeckComposition) :
    calcRec rules fuel dealer_hand deck =
      if fuel = 0 then {}
      else
        let ts := calculate_dealer_total_and_soft dealer_hand
        if 21 < ts.1 then { prob_bust := 1, recursive_calls := 1 }
        else if ¬ dealer_must_hit ts.1 ts.2 rules then
          if ts.1 = 17 then { prob_17 := 1, recursive_calls := 1 }
          else if ts.1 = 18 then { prob_18 := 1, recursive_calls := 1 }
          else if ts.1 = 19 then { prob_19 := 1, recursive_calls := 1 }
          else if ts.1 = 20 then { prob_20 := 1, recursive_calls := 1 }
          else if ts.1 = 21 then { prob_21 := 1, recursive_calls := 1 }
          else { recursive_calls := 1 }
        else
          let step := fun (acc : ExactDealerProbs × ℚ) (rank : ℤ) =>
            if deck.get_cards_for_rank rank ≤ 0 then acc
            else
              let card_prob := deck.get_probability rank
              let branch := calcRec rules (fuel - 1) (dealer_hand ++ [rank])
                (deck.remove_card rank)
              (addBranch acc.1 card_prob branch, acc.2 + card_prob)
          let res := rankList.foldl step ({ recursive_calls := 1 }, 0)
          if 0 < res.2 ∧ 1 / 1000000 < |res.2 - 1| then scaleProbs res.1 (1 / res.2)
          else res.1 := by
  cases fuel with
  | zero => rfl
  | succ n => rfl

end RecursiveDealerEngine

/-!
General helper lemmas about the slot-array primitives and list sums.
-/

theorem slotAux_nil (i : ℤ) : slotAux [] i = 0 := rfl

theorem slotAux_cons (c : ℤ) (l : List ℤ) (i : ℤ) :
    slotAux (c :: l) i = if i = 0 then c else slotAux l (i - 1) := rfl

theorem setAux_cons (c : ℤ) (l : List ℤ) (i x : ℤ) :
    setAux (c :: l) i x = if i = 0 then x :: l else c :: setAux l (i - 1) x := rfl

theorem setAux_length (l : List ℤ) : ∀ i x, (setAux l i x).length = l.length := by
  induction l with
  | nil => intro i x; rfl
  | cons c t ih =>
    intro i x
    rw [setAux_cons]
    by_cases h : i = 0
    · simp [h]
    · simp [h, ih]

theorem slotAux_setAux_ne (l : List ℤ) :
    ∀ i j x, i ≠ j → slotAux (setAux l i x) j = slotAux l j := by
  induction l with
  | nil => intro i j x _; rfl
  | cons c t ih =>
    intro i j x hij
    rw [setAux_cons]
    by_cases hi : i = 0
    · subst hi
      rw [if_pos rfl, slotAux_cons, slotAux_cons, if_neg (by omega), if_neg (by omega)]
    · rw [if_neg hi, slotAux_cons, slotAux_cons]
      by_cases hj : j = 0
      · simp [hj]
      · rw [if_neg hj, if_neg hj, ih (i - 1) (j - 1) x (by omega)]

theorem slotAux_setAux_self (l : List ℤ) :
    ∀ (i : ℤ) (x : ℤ), 0 ≤ i → i < (l.length : ℤ) → slotAux (setAux l i x) i = x := by
  induction l with
  | nil => intro i x h0 h; simp at h; omega
  | cons c t ih =>
    intro i x h0 hlen
    rw [setAux_cons]
    by_cases hi : i = 0
    · simp [hi, slotAux_cons]
    · rw [if_neg hi, slotAux_cons, if_neg hi]
      exact ih (i - 1) x (by omega) (by simp at hlen; omega)

theorem setAux_sum (l : List ℤ) :
    ∀ (i : ℤ) (x : ℤ), 0 ≤ i → i < (l.length : ℤ) →
      (setAux l i x).sum = l.sum - slotAux l i + x := by
  induction l with
  | nil => intro i x h0 h; simp at h; omega
  | cons c t ih =>
    intro i x h0 hlen
    rw [setAux_cons]
    by_cases hi : i = 0
    · simp [hi, slotAux_cons]
      ring
    · rw [if_neg hi, slotAux_cons, if_neg hi]
      simp only [List.sum_cons]
      rw [ih (i - 1) x (by omega) (by simp at hlen; omega)]
      ring

theorem setAux_mem_nonneg (l : List ℤ) :
    ∀ i x, (∀ c ∈ l, 0 ≤ c) → 0 ≤ x → ∀ c ∈ setAux l i x, 0 ≤ c := by
  induction l with
  | nil => intro i x _ _ c hc; simp [setAux] at hc
  | cons a t ih =>
    intro i x hl hx c hc
    rw [setAux_cons] at hc
    by_cases hi : i = 0
    · rw [if_pos hi] at hc
      rcases List.mem_cons.mp hc with h | h
      · omega
      · exact hl c (List.mem_cons_of_mem a h)
    · rw [if_neg hi] at hc
      rcases List.mem_cons.mp hc with h | h
      · exact h ▸ hl a (List.mem_cons_self _ _)
      · exact ih (i - 1) x (fun d hd => hl d (List.mem_cons_of_mem a hd)) hx c h

theorem slotAux_nonneg (l : List ℤ) (h : ∀ c ∈ l, 0 ≤ c) :
    ∀ i, 0 ≤ slotAux l i := by
  induction l with
  | nil => intro i; simp [slotAux_nil]
  | cons c t ih =>
    intro i
    rw [slotAux_cons]
    by_cases hi : i = 0
    · simp [hi]; exact h c (List.mem_cons_self _ _)
    · rw [if_neg hi]
      exact ih (fun d hd => h d (List.mem_cons_of_mem c hd)) (i - 1)

theorem acesPromote_total (a : ℕ) :
    ∀ s : ℤ, (acesPromote a s).1 = s + 10 * ((acesPromote a s).2 : ℤ) := by
  induction a with
  | zero => intro s; simp [acesPromote]
  | succ n ih =>
    intro s
    by_cases h : s + 10 ≤ 21
    · simp only [acesPromote, if_pos h]
      have := ih (s + 10)
      push_cast
      push_cast at this
      omega
    · simp [acesPromote, if_neg h]

theorem acesPromote_card_le (a : ℕ) : ∀ s : ℤ, (acesPromote a s).2 ≤ a := by
  induction a with
  | zero => intro s; simp [acesPromote]
  | succ n ih =>
    intro s
    by_cases h : s + 10 ≤ 21
    · simp only [acesPromote, if_pos h]
      have := ih (s + 10)
      omega
    · simp [acesPromote, if_neg h]

theorem acesPromote_within (a : ℕ) :
    ∀ s : ℤ, (acesPromote a s).2 = 0 ∨ s + 10 * ((acesPromote a s).2 : ℤ) ≤ 21 := by
  induction a with
  | zero => intro s; simp [acesPromote]
  | succ n ih =>
    intro s
    by_cases h : s + 10 ≤ 21
    · simp only [acesPromote, if_pos h]
      rcases ih (s + 10) with h0 | hle
      · right; rw [h0]; push_cast; omega
      · right; push_cast; omega
    · simp [acesPromote, if_neg h]

theorem acesPromote_greedy (a : ℕ) :
    ∀ (s : ℤ) (j : ℕ), j ≤ a → s + 10 * (j : ℤ) ≤ 21 →
      j ≤ (acesPromote a s).2 := by
  induction a with
  | zero => intro s j hj _; omega
  | succ n ih =>
    intro s j hj hle
    by_cases h : s + 10 ≤ 21
    · simp only [acesPromote, if_pos h]
      cases j with
      | zero => omega
      | succ m =>
        have := ih (s + 10) m (by omega) (by push_cast at hle; omega)
        omega
    · have hj0 : j = 0 := by
        by_contra hne
        have h1 : 1 ≤ j := by omega
        have : s + 10 ≤ s + 10 * (j : ℤ) := by
          have : (1 : ℤ) ≤ (j : ℤ) := by exact_mod_cast h1
          nlinarith
        omega
      simp [acesPromote, if_neg h, hj0]

theorem acesPromote_of_big (a : ℕ) (s : ℤ) (h : ¬ s + 10 ≤ 21) :
    acesPromote a s = (s, 0) := by
  cases a with
  | zero => rfl
  | succ n => simp [acesPromote, if_neg h]

theorem list_sum_nonneg (l : List ℤ) (h : ∀ c ∈ l, 0 ≤ c) : 0 ≤ l.sum := by
  induction l with
  | nil => simp
  | cons c t ih =>
    simp only [List.sum_cons]
    have := h c (List.mem_cons_self _ _)
    have := ih (fun d hd => h d (List.mem_cons_of_mem c hd))
    omega

theorem list_mem_le_sum (l : List ℤ) (h : ∀ c ∈ l, 0 ≤ c) :
    ∀ x ∈ l, x ≤ l.sum := by
  induction l with
  | nil => intro x hx; simp at hx
  | cons c t ih =>
    intro x hx
    simp only [List.sum_cons]
    have ht : ∀ d ∈ t, (0 : ℤ) ≤ d := fun d hd => h d (List.mem_cons_of_mem c hd)
    rcases List.mem_cons.mp hx with h1 | h1
    · have := list_sum_nonneg t ht
      omega
    · have := ih ht x h1
      have := h c (List.mem_cons_self _ _)
      omega

theorem lookup_eq_none_of_not_mem {β : Type} (k : ℤ) :
    ∀ l : List (ℤ × β), k ∉ l.map Prod.fst → l.lookup k = none := by
  intro l
  induction l with
  | nil => intro _; rfl
  | cons p t ih =>
    intro h
    simp only [List.map_cons, List.mem_cons] at h
    push_neg at h
    rw [List.lookup]
    have hb : (k == p.1) = false := by simpa using h.1
    simp only [hb]
    exact ih h.2

/-- A list of length 13 is a 13-element enumeration. -/
theorem list13_decomp (l : List ℤ) (h : l.length = 13) :
    ∃ c0 c1 c2 c3 c4 c5 c6 c7 c8 c9 c10 c11 c12,
      l = [c0, c1, c2, c3, c4, c5, c6, c7, c8, c9, c10, c11, c12] := by
  obtain _ | ⟨c0, l⟩ := l; · simp at h
  obtain _ | ⟨c1, l⟩ := l; · simp at h
  obtain _ | ⟨c2, l⟩ := l; · simp at h
  obtain _ | ⟨c3, l⟩ := l; · simp at h
  obtain _ | ⟨c4, l⟩ := l; · simp at h
  obtain _ | ⟨c5, l⟩ := l; · simp at h
  obtain _ | ⟨c6, l⟩ := l; · simp at h
  obtain _ | ⟨c7, l⟩ := l; · simp at h
  obtain _ | ⟨c8, l⟩ := l; · simp at h
  obtain _ | ⟨c9, l⟩ := l; · simp at h
  obtain _ | ⟨c10, l⟩ := l; · simp at h
  obtain _ | ⟨c11, l⟩ := l; · simp at h
  obtain _ | ⟨c12, l⟩ := l; · simp at h
  obtain _ | ⟨c13, l⟩ := l
  · exact ⟨c0, c1, c2, c3, c4, c5, c6, c7, c8, c9, c10, c11, c12, rfl⟩
  · simp at h

/-- Modelled from the spec (section 4.2, error taxonomy section 7): the
draw-probability query as the spec words it, failing with DivisionUndefined
(here: none) when total() == 0 instead of producing an ordinary number. -/
def spec_probability_checked (d : DeckComposition) (rank : ℤ) : Option ℚ :=
  if d.total_cards = 0 then none
  else some ((d.get_cards_for_rank rank : ℚ) / (d.total_cards : ℚ))

/-- Modelled from the spec (section 4.1, error taxonomy section 7): hand
evaluation as the spec words it, failing with InvalidCard (here: none) when
any supplied rank lies outside 1-10. -/
def spec_evaluate_checked (cards : List ℤ) : Option HandData :=
  if cards.all fun c => 1 ≤ c ∧ c ≤ 10 then
    some (BJLogicCore.calculate_hand_value cards)
  else none

/-!
Concrete inputs used by counterexamples and witnesses.
-/

/-- S17 rule set (dealer stands on soft 17), 3:2 payout. -/
def rulesS17 : RulesConfig := { dealer_hits_soft_17 := false }

theorem rulesS17_h17 : rulesS17.dealer_hits_soft_17 = false := rfl

/-- A dealer distribution concentrated on a final total of 17. -/
def probsDealer17 : ExactDealerProbs := { prob_17 := 1 }

/-- Deck one: a seven and 54 ten-value cards in the king slot. -/
def deckCollisionA : DeckComposition := ⟨[0,0,0,0,0,0,1,0,0,53,0,0,0], 54⟩

/-- Deck two: a seven and a nine; after removing the upcard seven, its
cache key collides with deck one's (1 * 53^4 = 53 * 53^3). -/
def deckCollisionB : DeckComposition := ⟨[0,0,0,0,0,0,1,0,1,0,0,0,0], 2⟩

/-- A one-ace-one-ten deck for the blackjack-probability witness. -/
def deckAceTen : DeckComposition := ⟨[1,0,0,0,0,0,0,0,0,1,0,0,0], 2⟩

/-- A tiny DeckState (two tens, one five) for the double-EV witness. -/
def deckDouble : DeckState :=
  { cards_remaining := fun r => if r = 10 then 2 else if r = 5 then 1 else 0,
    total_cards := 3 }

theorem deckDouble_counts (r : ℤ) : deckDouble.cards_remaining r =
    if r = 10 then 2 else if r = 5 then 1 else 0 := rfl

theorem deckDouble_total : deckDouble.total_cards = 3 := rfl

/-- An engine state holding one entry under key 0 (an arbitrary warm cache
whose single key no real query here collides with). -/
def stateKeyZero : RecursiveDealerEngine.EngineState := { cache := [(0, {})] }

theorem handEvalAceTen : BJLogicCore.calculate_hand_value [1, 10] =
    { cards := [1, 10], total := 21, is_soft := false, can_split := false,
      is_blackjack := true, is_busted := false } := by decide

theorem freshOneDeck : DeckComposition.fresh 1 =
    ⟨[4, 4, 4, 4, 4, 4, 4, 4, 4, 4, 4, 4, 4], 52⟩ := by decide

namespace RecursiveDealerEngine

theorem foldl_branches_pbj (rules : RulesConfig) (n : ℕ) (hand : List ℤ)
    (deck : DeckComposition)
    (ih : ∀ hand2 deck2, (calcRec rules n hand2 deck2).prob_blackjack = 0) :
    ∀ (l : List ℤ) (acc : ExactDealerProbs × ℚ), acc.1.prob_blackjack = 0 →
      ((l.foldl (fun acc rank =>
          if deck.get_cards_for_rank rank ≤ 0 then acc
          else
            (addBranch acc.1 (deck.get_probability rank)
              (calcRec rules n (hand ++ [rank]) (deck.remove_card rank)),
             acc.2 + deck.get_probability rank)) acc).1).prob_blackjack = 0 := by
  intro l
  induction l with
  | nil => intro acc h; exact h
  | cons r t iht =>
    intro acc h
    rw [List.foldl_cons]
    by_cases hc : deck.get_cards_for_rank r ≤ 0
    · rw [if_pos hc]; exact iht acc h
    · rw [if_neg hc]
      refine iht _ ?_
      simp only [addBranch]
      rw [h, ih]
      ring

theorem calcRec_pbj_zero (rules : RulesConfig) :
    ∀ (fuel : ℕ) (hand : List ℤ) (deck : DeckComposition),
      (calcRec rules fuel hand deck).prob_blackjack = 0 := by
  intro fuel
  induction fuel with
  | zero => intro hand deck; rfl
  | succ n ih =>
    intro hand deck
    rw [calcRec_unfold]
    rw [if_neg (Nat.succ_ne_zero n)]
    simp only [Nat.add_sub_cancel]
    by_cases h1 : 21 < (calculate_dealer_total_and_soft hand).1
    · rw [if_pos h1]
    · rw [if_neg h1]
      by_cases h2 : ¬ dealer_must_hit (calculate_dealer_total_and_soft hand).1
          (calculate_dealer_total_and_soft hand).2 rules
      · rw [if_pos h2]
        split_ifs <;> rfl
      · rw [if_neg h2]
        have hres := foldl_branches_pbj rules n hand deck ih rankList
          ({ recursive_calls := 1 }, 0) rfl
        split_ifs with h3
        · simp only [scaleProbs]
          rw [hres]
          ring
        · exact hres

end RecursiveDealerEngine

/-!
Claim theorems.
-/

open RecursiveDealerEngine AdvancedEVEngine

/-- Claim C1 (code bug): the claim says every dealer-probability query,
including the fresh-deck fast path of
AdvancedEVEngine::calculate_dealer_probabilities_advanced, returns seven
buckets summing to 1.0 within 1e-6.  The fast path applies to a fresh
6-deck shoe (is_fresh_deck holds), yet its hardcoded upcard-10 S17 table
sums to 1.0308, violating the tolerance by more than 0.03. -/
theorem C1_fresh_deck_fast_path_sum :
    is_fresh_deck (DeckComposition.fresh 6) = true ∧
    (calculate_dealer_probabilities_fresh_deck 10 rulesS17).bucket_sum
      = 10308 / 10000 ∧
    ¬ |(calculate_dealer_probabilities_fresh_deck 10 rulesS17).bucket_sum - 1|
        ≤ 1 / 1000000 := by
  have h2 : (calculate_dealer_probabilities_fresh_deck 10 rulesS17).bucket_sum
      = 10308 / 10000 := by
    simp only [calculate_dealer_probabilities_fresh_deck, fresh_deck_s17_table,
      finalizeFresh, DealerProbabilities.bucket_sum, rulesS17_h17]
    norm_num
  exact ⟨by decide, h2, by rw [h2]; norm_num [abs_le]⟩

/-- Claim C2 (code bug): the claim says a player natural nets exactly
blackjack_payout against every dealer non-blackjack outcome.  Against a
dealer distribution concentrated on 17 with a 3:2 payout, the code returns
5/2: the generic comparison block first credits the +1 win and the
blackjack block then adds the full payout on top, while the claimed value
is 3/2. -/
theorem C2_stand_ev_blackjack_overpay :
    calculate_stand_ev_from_exact_probs [1, 10] probsDealer17 rulesS17 = 5 / 2 ∧
    rulesS17.blackjack_payout *
      (probsDealer17.prob_17 + probsDealer17.prob_18 + probsDealer17.prob_19 +
       probsDealer17.prob_20 + probsDealer17.prob_21 + probsDealer17.prob_bust)
      = 3 / 2 ∧
    (5 / 2 : ℚ) ≠ 3 / 2 := by
  refine ⟨?_, by norm_num [probsDealer17, rulesS17], by norm_num⟩
  norm_num [calculate_stand_ev_from_exact_probs, probsDealer17, rulesS17,
    handEvalAceTen]

/-- Claim C3: prob_blackjack of the dealer distribution is exactly 0 for
upcards 2 through 9, and no recursive sub-call
(RecursiveDealerEngine::calculate_recursive) ever produces a non-zero
prob_blackjack; only the top-level conditioning step can set it. -/
theorem C3_blackjack_zero_for_upcards_2_to_9 :
    (∀ (rules : RulesConfig) (hand : List ℤ) (deck : DeckComposition),
        (calculate_recursive hand deck rules).prob_blackjack = 0) ∧
    (∀ (rules : RulesConfig) (up : ℤ) (working : DeckComposition),
        2 ≤ up → up ≤ 9 →
        (computeExactProbs up working rules).prob_blackjack = 0) ∧
    (∀ (rules : RulesConfig) (up : ℤ) (deck : DeckComposition),
        2 ≤ up → up ≤ 9 →
        (calculate_exact_probabilities up deck rules emptyState).1.prob_blackjack
          = 0) := by
  have hrec : ∀ (rules : RulesConfig) (hand : List ℤ) (deck : DeckComposition),
      (calculate_recursive hand deck rules).prob_blackjack = 0 := by
    intro rules hand deck
    exact calcRec_pbj_zero rules (deckFuel deck) hand deck
  have hcomp : ∀ (rules : RulesConfig) (up : ℤ) (working : DeckComposition),
      2 ≤ up → up ≤ 9 →
      (computeExactProbs up working rules).prob_blackjack = 0 := by
    intro rules up working h2 h9
    rw [computeExactProbs]
    rw [if_neg (by omega)]
    exact hrec rules [up] working
  refine ⟨hrec, hcomp, ?_⟩
  intro rules up deck h2 h9
  show (computeExactProbs up (deck.remove_card up) rules).prob_blackjack = 0
  exact hcomp rules up (deck.remove_card up) h2 h9

/-- Witness for C3 at upcard 5 on a fresh single deck. -/
theorem C3_witness :
    (2 : ℤ) ≤ 5 ∧ (5 : ℤ) ≤ 9 ∧
    (calculate_exact_probabilities 5 (DeckComposition.fresh 1) rulesS17
        emptyState).1.prob_blackjack = 0 :=
  ⟨by decide, by decide,
    C3_blackjack_zero_for_upcards_2_to_9.2.2 rulesS17 5 (DeckComposition.fresh 1)
      (by decide) (by decide)⟩

theorem hand_value_unfold (cards : List ℤ) (h : cards ≠ []) :
    BJLogicCore.calculate_hand_value cards =
      { cards := cards
        total := (acesPromote (cards.count 1) cards.sum).1
        is_soft := decide (0 < (acesPromote (cards.count 1) cards.sum).2) &&
          decide ((acesPromote (cards.count 1) cards.sum).1 < 21)
        is_busted := decide (21 < (acesPromote (cards.count 1) cards.sum).1)
        is_blackjack := decide (cards.length = 2) &&
          decide ((acesPromote (cards.count 1) cards.sum).1 = 21)
        can_split := decide (cards.length = 2) && pairEq cards } := by
  rw [BJLogicCore.calculate_hand_value, if_neg h]

theorem can_split_iff (cards : List ℤ) :
    (decide (cards.length = 2) && pairEq cards) = true ↔
      ∃ x y : ℤ, cards = [x, y] ∧ x = y := by
  match cards with
  | [] => simp [pairEq]
  | [a] => simp [pairEq]
  | a :: b :: rest =>
    constructor
    · intro h
      rw [Bool.and_eq_true] at h
      have hlen := of_decide_eq_true h.1
      have hrest : rest = [] := by
        simp only [List.length_cons] at hlen
        exact List.eq_nil_of_length_eq_zero (by omega)
      subst hrest
      refine ⟨a, b, rfl, ?_⟩
      have := h.2
      simpa [pairEq] using this
    · rintro ⟨x, y, heq, rfl⟩
      obtain ⟨rfl, rfl, rfl⟩ : a = x ∧ b = x ∧ rest = [] := by
        simpa using heq
      simp [pairEq]

/-- Claim C4 refuted as stated: the claim covers the legacy
src/cpp_src/bjlogic_core.cpp calculate_hand_value as well, asserting
[Ace, 10] evaluates to 21 and not soft.  The legacy evaluator flags soft
with total <= 21 (one ace still counted as 11), so it reports the natural
[A, 10] as soft, while the fresh engine reports it as not soft. -/
theorem C4_cex_legacy_soft_21 :
    legacy_calculate_hand_value ["A", "10"] = (21, true) ∧
    (BJLogicCore.calculate_hand_value [1, 10]).total = 21 ∧
    (BJLogicCore.calculate_hand_value [1, 10]).is_soft = false := by decide

/-- Claim C4 (amended): the stated hand-evaluation behaviour holds for the
fresh engine BJLogicCore::calculate_hand_value (bjlogic_core.cpp): the
total is the rank sum plus 10 per greedily promoted ace (the promoted
count k is maximal with sum + 10k <= 21), is_soft iff some ace was
promoted and total < 21, is_busted iff total > 21, is_blackjack iff
exactly two cards totalling 21, can_split iff exactly two equal cards;
including the boundary hands [A,6] soft 17, [A,10] non-soft 21, and
[A,A,9] non-soft 21.  The superseded legacy variant differs on is_soft
exactly as the counterexample shows. -/
theorem C4_hand_evaluation_amended :
    (∀ cards : List ℤ, cards ≠ [] → (∀ c ∈ cards, 1 ≤ c ∧ c ≤ 10) →
      ∃ k : ℕ,
        k ≤ cards.count 1 ∧
        (k = 0 ∨ cards.sum + 10 * (k : ℤ) ≤ 21) ∧
        (∀ j : ℕ, j ≤ cards.count 1 → cards.sum + 10 * (j : ℤ) ≤ 21 → j ≤ k) ∧
        (BJLogicCore.calculate_hand_value cards).total = cards.sum + 10 * (k : ℤ) ∧
        ((BJLogicCore.calculate_hand_value cards).is_soft = true ↔
          0 < k ∧ (BJLogicCore.calculate_hand_value cards).total < 21) ∧
        ((BJLogicCore.calculate_hand_value cards).is_busted = true ↔
          21 < (BJLogicCore.calculate_hand_value cards).total) ∧
        ((BJLogicCore.calculate_hand_value cards).is_blackjack = true ↔
          cards.length = 2 ∧ (BJLogicCore.calculate_hand_value cards).total = 21) ∧
        ((BJLogicCore.calculate_hand_value cards).can_split = true ↔
          ∃ x y : ℤ, cards = [x, y] ∧ x = y)) ∧
    (BJLogicCore.calculate_hand_value [1, 6]).total = 17 ∧
    (BJLogicCore.calculate_hand_value [1, 6]).is_soft = true ∧
    (BJLogicCore.calculate_hand_value [1, 10]).total = 21 ∧
    (BJLogicCore.calculate_hand_value [1, 10]).is_soft = false ∧
    (BJLogicCore.calculate_hand_value [1, 1, 9]).total = 21 ∧
    (BJLogicCore.calculate_hand_value [1, 1, 9]).is_soft = false := by
  refine ⟨?_, by decide, by decide, by decide, by decide, by decide, by decide⟩
  intro cards hne _
  refine ⟨(acesPromote (cards.count 1) cards.sum).2,
    acesPromote_card_le _ _, acesPromote_within _ _, acesPromote_greedy _ _,
    ?_, ?_, ?_, ?_, ?_⟩
  · rw [hand_value_unfold cards hne]
    exact acesPromote_total _ _
  · rw [hand_value_unfold cards hne]
    simp only [Bool.and_eq_true, decide_eq_true_eq]
  · rw [hand_value_unfold cards hne]
    simp only [decide_eq_true_eq]
  · rw [hand_value_unfold cards hne]
    simp only [Bool.and_eq_true, decide_eq_true_eq]
  · rw [hand_value_unfold cards hne]
    exact can_split_iff cards

/-- Witness for C4 at the pinned boundary hand [A, A, 9]. -/
theorem C4_witness :
    ([1, 1, 9] : List ℤ) ≠ [] ∧
    (∀ c ∈ ([1, 1, 9] : List ℤ), 1 ≤ c ∧ c ≤ 10) ∧
    ∃ k : ℕ,
      k ≤ ([1, 1, 9] : List ℤ).count 1 ∧
      (k = 0 ∨ ([1, 1, 9] : List ℤ).sum + 10 * (k : ℤ) ≤ 21) ∧
      (∀ j : ℕ, j ≤ ([1, 1, 9] : List ℤ).count 1 →
        ([1, 1, 9] : List ℤ).sum + 10 * (j : ℤ) ≤ 21 → j ≤ k) ∧
      (BJLogicCore.calculate_hand_value [1, 1, 9]).total =
        ([1, 1, 9] : List ℤ).sum + 10 * (k : ℤ) ∧
      ((BJLogicCore.calculate_hand_value [1, 1, 9]).is_soft = true ↔
        0 < k ∧ (BJLogicCore.calculate_hand_value [1, 1, 9]).total < 21) ∧
      ((BJLogicCore.calculate_hand_value [1, 1, 9]).is_busted = true ↔
        21 < (BJLogicCore.calculate_hand_value [1, 1, 9]).total) ∧
      ((BJLogicCore.calculate_hand_value [1, 1, 9]).is_blackjack = true ↔
        ([1, 1, 9] : List ℤ).length = 2 ∧
          (BJLogicCore.calculate_hand_value [1, 1, 9]).total = 21) ∧
      ((BJLogicCore.calculate_hand_value [1, 1, 9]).can_split = true ↔
        ∃ x y : ℤ, ([1, 1, 9] : List ℤ) = [x, y] ∧ x = y) :=
  ⟨by decide, by decide,
    C4_hand_evaluation_amended.1 [1, 1, 9] (by decide) (by decide)⟩

/-- Claim C7 refuted as stated: the claim says the draw-probability query
fails with DivisionUndefined on a zero-card deck; the code instead returns
the ordinary number 0.0 from a silent guard. -/
theorem C7_cex_empty_deck_probability :
    (DeckComposition.fresh 0).total_cards = 0 ∧
    spec_probability_checked (DeckComposition.fresh 0) 1 = none ∧
    some ((DeckComposition.fresh 0).get_probability 1) ≠
      spec_probability_checked (DeckComposition.fresh 0) 1 := by decide

/-- Claim C7 (amended): get_probability returns count(rank)/total() when
the deck total is positive, and returns 0.0 as an ordinary guarded value
(no error) when the total is zero or negative. -/
theorem C7_probability_amended :
    ∀ (d : DeckComposition) (rank : ℤ),
      (0 < d.total_cards →
        d.get_probability rank =
          (d.get_cards_for_rank rank : ℚ) / (d.total_cards : ℚ)) ∧
      (d.total_cards ≤ 0 → d.get_probability rank = 0) := by
  intro d rank
  constructor
  · intro h
    rw [DeckComposition.get_probability, if_neg (by omega)]
  · intro h
    rw [DeckComposition.get_probability, if_pos h]

/-- Witness for C7 on a fresh single deck: drawing a ten-value card has
probability 16/52. -/
theorem C7_witness :
    0 < (DeckComposition.fresh 1).total_cards ∧
    (DeckComposition.fresh 1).get_probability 10 = 16 / 52 := by
  refine ⟨by decide, ?_⟩
  rw [(C7_probability_amended (DeckComposition.fresh 1) 10).1 (by decide)]
  rw [freshOneDeck]
  norm_num [DeckComposition.get_cards_for_rank, DeckComposition.get_ten_cards,
    DeckComposition.slot, slotAux]

/-- Claim C8 refuted as stated: the claim says calculate_hand_value fails
fast with InvalidCard on a rank outside 1-10; the code performs no
validation and returns an ordinary HandData (here a busted total of 25)
where the spec-modelled checked evaluator demands the error. -/
theorem C8_cex_invalid_rank_no_error :
    spec_evaluate_checked [25] = none ∧
    BJLogicCore.calculate_hand_value [25] =
      { cards := [25], total := 25, is_soft := false, can_split := false,
        is_blackjack := false, is_busted := true } := by decide

/-- Claim C8 (amended): calculate_hand_value performs no range validation;
an out-of-range rank is summed at face value and an ordinary HandData is
returned, never an InvalidCard error.  In particular any hand of positive
ranks containing a rank of 22 or more comes back as an ordinary busted
result. -/
theorem C8_amended_no_validation :
    ∀ cards : List ℤ, (∀ c ∈ cards, 1 ≤ c) → (∃ c ∈ cards, 22 ≤ c) →
      (BJLogicCore.calculate_hand_value cards).is_busted = true := by
  intro cards hall hex
  obtain ⟨c, hc, hbig⟩ := hex
  have hne : cards ≠ [] := by
    intro h
    subst h
    simp at hc
  have hnn : ∀ d ∈ cards, (0 : ℤ) ≤ d := fun d hd => by
    have := hall d hd
    omega
  have hsum : 22 ≤ cards.sum := le_trans hbig (list_mem_le_sum cards hnn c hc)
  rw [hand_value_unfold cards hne]
  simp only [decide_eq_true_eq]
  rw [acesPromote_of_big _ _ (by omega)]
  omega

/-- Witness for C8 at the single out-of-range rank 25. -/
theorem C8_witness :
    (∀ c ∈ ([25] : List ℤ), 1 ≤ c) ∧
    (BJLogicCore.calculate_hand_value [25]).is_busted = true :=
  ⟨by decide, C8_amended_no_validation [25] (by decide) ⟨25, by decide, by decide⟩⟩

namespace DeckComposition

theorem decSlot_total (d : DeckComposition) (i : ℤ) :
    (d.decSlot i).total_cards = d.total_cards - 1 := rfl

theorem decSlot_slot_self (d : DeckComposition) (i : ℤ)
    (hlen : d.cards.length = 13) (h0 : 0 ≤ i) (h13 : i < 13) :
    (d.decSlot i).slot i = d.slot i - 1 := by
  show slotAux (setAux d.cards i (d.slot i - 1)) i = d.slot i - 1
  exact slotAux_setAux_self d.cards i _ h0 (by rw [hlen]; exact_mod_cast h13)

theorem decSlot_slot_ne (d : DeckComposition) (i j : ℤ) (h : i ≠ j) :
    (d.decSlot i).slot j = d.slot j := by
  show slotAux (setAux d.cards i (d.slot i - 1)) j = slotAux d.cards j
  exact slotAux_setAux_ne d.cards i j _ h

theorem decSlot_Inv (d : DeckComposition) (i : ℤ) (hInv : d.Inv)
    (h0 : 0 ≤ i) (h13 : i < 13) (hpos : 0 < d.slot i) : (d.decSlot i).Inv := by
  obtain ⟨hlen, hsum, hnn⟩ := hInv
  have hlt : i < (d.cards.length : ℤ) := by rw [hlen]; exact_mod_cast h13
  refine ⟨?_, ?_, ?_⟩
  · show (setAux d.cards i (d.slot i - 1)).length = 13
    rw [setAux_length]; exact hlen
  · show d.total_cards - 1 = (setAux d.cards i (d.slot i - 1)).sum
    rw [setAux_sum d.cards i _ h0 hlt]
    show d.total_cards - 1 = d.cards.sum - d.slot i + (d.slot i - 1)
    omega
  · exact setAux_mem_nonneg d.cards i _ hnn (by omega)

theorem get_cards_small (d : DeckComposition) (rank : ℤ)
    (h1 : 1 ≤ rank) (h9 : rank ≤ 9) :
    d.get_cards_for_rank rank = d.slot (rank - 1) := by
  rw [get_cards_for_rank]
  by_cases h : rank = 1
  · subst h; norm_num
  · rw [if_neg h, if_pos (by omega)]

theorem get_cards_ten (d : DeckComposition) :
    d.get_cards_for_rank 10 = d.get_ten_cards := by
  rw [get_cards_for_rank]
  norm_num

theorem get_cards_outside (d : DeckComposition) (rank : ℤ)
    (h : ¬(1 ≤ rank ∧ rank ≤ 10)) : d.get_cards_for_rank rank = 0 := by
  rw [get_cards_for_rank, if_neg (by omega), if_neg (by omega), if_neg (by omega)]

end DeckComposition

open DeckComposition in
/-- Claim C6: remove_card preserves the deck invariant (total equals the
slot sum, no slot negative): when the count for the rank is positive it
decrements that count and the total by exactly one, and when the count is
zero (or the rank is out of range) it is a silent no-op leaving the
composition unchanged. -/
theorem C6_remove_card :
    ∀ (d : DeckComposition) (rank : ℤ), d.Inv →
      (d.remove_card rank).Inv ∧
      (0 < d.get_cards_for_rank rank →
        (d.remove_card rank).get_cards_for_rank rank =
          d.get_cards_for_rank rank - 1 ∧
        (d.remove_card rank).total_cards = d.total_cards - 1) ∧
      (d.get_cards_for_rank rank = 0 → d.remove_card rank = d) := by
  intro d rank hInv
  by_cases hr : 1 ≤ rank ∧ rank ≤ 10
  · by_cases h10 : rank = 10
    · subst h10
      rw [remove_card, if_pos hr, if_pos rfl]
      have hnn9 : 0 ≤ d.slot 9 := slotAux_nonneg d.cards hInv.2.2 9
      have hnn10 : 0 ≤ d.slot 10 := slotAux_nonneg d.cards hInv.2.2 10
      have hnn11 : 0 ≤ d.slot 11 := slotAux_nonneg d.cards hInv.2.2 11
      have hnn12 : 0 ≤ d.slot 12 := slotAux_nonneg d.cards hInv.2.2 12
      by_cases h9 : 0 < d.slot 9
      · rw [if_pos h9]
        refine ⟨decSlot_Inv d 9 hInv (by omega) (by omega) h9, fun _ => ?_, fun h0 => ?_⟩
        · constructor
          · rw [get_cards_ten, get_cards_ten]
            unfold get_ten_cards
            rw [decSlot_slot_self d 9 hInv.1 (by omega) (by omega),
              decSlot_slot_ne d 9 10 (by omega), decSlot_slot_ne d 9 11 (by omega),
              decSlot_slot_ne d 9 12 (by omega)]
            ring
          · exact decSlot_total d 9
        · rw [get_cards_ten] at h0
          unfold get_ten_cards at h0
          omega
      · rw [if_neg h9]
        by_cases hA : 0 < d.slot 10
        · rw [if_pos hA]
          refine ⟨decSlot_Inv d 10 hInv (by omega) (by omega) hA, fun _ => ?_, fun h0 => ?_⟩
          · constructor
            · rw [get_cards_ten, get_cards_ten]
              unfold get_ten_cards
              rw [decSlot_slot_self d 10 hInv.1 (by omega) (by omega),
                decSlot_slot_ne d 10 9 (by omega), decSlot_slot_ne d 10 11 (by omega),
                decSlot_slot_ne d 10 12 (by omega)]
              ring
            · exact decSlot_total d 10
          · rw [get_cards_ten] at h0
            unfold get_ten_cards at h0
            omega
        · rw [if_neg hA]
          by_cases hB : 0 < d.slot 11
          · rw [if_pos hB]
            refine ⟨decSlot_Inv d 11 hInv (by omega) (by omega) hB, fun _ => ?_, fun h0 => ?_⟩
            · constructor
              · rw [get_cards_ten, get_cards_ten]
                unfold get_ten_cards
                rw [decSlot_slot_self d 11 hInv.1 (by omega) (by omega),
                  decSlot_slot_ne d 11 9 (by omega), decSlot_slot_ne d 11 10 (by omega),
                  decSlot_slot_ne d 11 12 (by omega)]
                ring
              · exact decSlot_total d 11
            · rw [get_cards_ten] at h0
              unfold get_ten_cards at h0
              omega
          · rw [if_neg hB]
            by_cases hC : 0 < d.slot 12
            · rw [if_pos hC]
              refine ⟨decSlot_Inv d 12 hInv (by omega) (by omega) hC, fun _ => ?_, fun h0 => ?_⟩
              · constructor
                · rw [get_cards_ten, get_cards_ten]
                  unfold get_ten_cards
                  rw [decSlot_slot_self d 12 hInv.1 (by omega) (by omega),
                    decSlot_slot_ne d 12 9 (by omega), decSlot_slot_ne d 12 10 (by omega),
                    decSlot_slot_ne d 12 11 (by omega)]
                  ring
                · exact decSlot_total d 12
              · rw [get_cards_ten] at h0
                unfold get_ten_cards at h0
                omega
            · rw [if_neg hC]
              refine ⟨hInv, fun hpos => ?_, fun _ => rfl⟩
              rw [get_cards_ten] at hpos
              unfold get_ten_cards at hpos
              omega
    · have h19 : 1 ≤ rank ∧ rank ≤ 9 := ⟨hr.1, by omega⟩
      rw [remove_card, if_pos hr, if_neg h10]
      have hnnI : 0 ≤ d.slot (rank - 1) := slotAux_nonneg d.cards hInv.2.2 (rank - 1)
      by_cases hp : 0 < d.slot (rank - 1)
      · rw [if_pos hp]
        refine ⟨decSlot_Inv d (rank - 1) hInv (by omega) (by omega) hp,
          fun _ => ?_, fun h0 => ?_⟩
        · constructor
          · rw [get_cards_small _ _ h19.1 h19.2, get_cards_small _ _ h19.1 h19.2]
            exact decSlot_slot_self d (rank - 1) hInv.1 (by omega) (by omega)
          · exact decSlot_total d (rank - 1)
        · rw [get_cards_small _ _ h19.1 h19.2] at h0
          omega
      · rw [if_neg hp]
        refine ⟨hInv, fun hpos => ?_, fun _ => rfl⟩
        rw [get_cards_small _ _ h19.1 h19.2] at hpos
        omega
  · rw [remove_card, if_neg hr]
    refine ⟨hInv, fun hpos => ?_, fun _ => rfl⟩
    rw [get_cards_outside d rank hr] at hpos
    omega


/-- Witness for C6 on a fresh 6-deck shoe removing a five. -/
theorem C6_witness :
    (DeckComposition.fresh 6).Inv ∧
    ((DeckComposition.fresh 6).remove_card 5).Inv ∧
    0 < (DeckComposition.fresh 6).get_cards_for_rank 5 ∧
    ((DeckComposition.fresh 6).remove_card 5).get_cards_for_rank 5 =
      (DeckComposition.fresh 6).get_cards_for_rank 5 - 1 :=
  ⟨by decide, (C6_remove_card (DeckComposition.fresh 6) 5 (by decide)).1,
    by decide,
    ((C6_remove_card (DeckComposition.fresh 6) 5 (by decide)).2.1 (by decide)).1⟩

theorem fuelCollisionA : deckFuel ⟨[0,0,0,0,0,0,0,0,0,53,0,0,0], 53⟩ = 54 := by
  norm_num [deckFuel]
  omega

theorem fuelCollisionB : deckFuel ⟨[0,0,0,0,0,0,0,0,1,0,0,0,0], 1⟩ = 2 := by
  norm_num [deckFuel]

theorem evalDealerTens :
    calcRec rulesS17 53 [7, 10] ⟨[0,0,0,0,0,0,0,0,0,52,0,0,0], 52⟩ =
      { prob_17 := 1, recursive_calls := 1 } := by
  rw [calcRec_unfold]
  norm_num [calculate_dealer_total_and_soft, dealer_must_hit, rulesS17_h17]

theorem evalDealerSevenTens :
    calcRec rulesS17 54 [7] ⟨[0,0,0,0,0,0,0,0,0,53,0,0,0], 53⟩ =
      { prob_17 := 1, recursive_calls := 2 } := by
  rw [calcRec_unfold]
  norm_num [calculate_dealer_total_and_soft, dealer_must_hit, rankList,
    DeckComposition.get_cards_for_rank, DeckComposition.get_ten_cards,
    DeckComposition.get_probability, DeckComposition.remove_card,
    DeckComposition.decSlot, DeckComposition.slot, slotAux, setAux,
    addBranch, scaleProbs, evalDealerTens]

theorem evalDealerSevenNineEmpty :
    calcRec rulesS17 1 [7, 9] ⟨[0,0,0,0,0,0,0,0,0,0,0,0,0], 0⟩ =
      { recursive_calls := 1 } := by
  rw [calcRec_unfold]
  norm_num [calculate_dealer_total_and_soft, dealer_must_hit, rankList,
    DeckComposition.get_cards_for_rank, DeckComposition.get_ten_cards,
    DeckComposition.get_probability, DeckComposition.remove_card,
    DeckComposition.decSlot, DeckComposition.slot, slotAux, setAux,
    addBranch, scaleProbs]

theorem evalDealerSevenNine :
    calcRec rulesS17 2 [7] ⟨[0,0,0,0,0,0,0,0,1,0,0,0,0], 1⟩ =
      { recursive_calls := 2 } := by
  rw [calcRec_unfold]
  norm_num [calculate_dealer_total_and_soft, dealer_must_hit, rankList,
    DeckComposition.get_cards_for_rank, DeckComposition.get_ten_cards,
    DeckComposition.get_probability, DeckComposition.remove_card,
    DeckComposition.decSlot, DeckComposition.slot, slotAux, setAux,
    addBranch, scaleProbs, evalDealerSevenNineEmpty]

/-- Claim C9 refuted as stated: the 64-bit rolling cache key collides on
distinct queries (after removing the upcard 7, deck one leaves 53 kings and
deck two leaves one nine, and 53 * 53^3 = 1 * 53^4), so querying deck two
with the cache warmed by deck one returns deck one's distribution
(prob_17 = 1) instead of its own cold answer (prob_17 = 0): interleaving
another query changed this query's numeric result. -/
theorem C9_cex_cache_collision :
    (calculate_exact_probabilities 7 deckCollisionB rulesS17
        (calculate_exact_probabilities 7 deckCollisionA rulesS17
          emptyState).2).1.prob_17 ≠
      (calculate_exact_probabilities 7 deckCollisionB rulesS17
        emptyState).1.prob_17 := by
  norm_num [calculate_exact_probabilities, computeExactProbs,
    calculate_recursive, generate_cache_key, DeckComposition.get_cache_key,
    emptyState, List.lookup, deckCollisionA, deckCollisionB, rulesS17_h17,
    DeckComposition.remove_card, DeckComposition.decSlot,
    DeckComposition.slot, slotAux, setAux, fuelCollisionA, fuelCollisionB,
    evalDealerSevenTens, evalDealerSevenNine]

/-- Claim C9 (amended): caching is transparent exactly in the absence of
cache-key collisions.  A query whose 64-bit key is absent from the warm
cache returns precisely its cold-cache result, and immediately repeating
any query returns the same seven probabilities with only the from_cache
flag set; but distinct (upcard, deck, rules) states can share a key, and
then a warm query returns the colliding query's cached distribution, as
the counterexample shows. -/
theorem C9_cache_transparent_amended :
    ∀ (up : ℤ) (deck : DeckComposition) (rules : RulesConfig)
      (st : EngineState),
      (generate_cache_key [up] (deck.remove_card up) rules ∉
          st.cache.map Prod.fst →
        (calculate_exact_probabilities up deck rules st).1 =
          (calculate_exact_probabilities up deck rules emptyState).1) ∧
      ((calculate_exact_probabilities up deck rules
          ((calculate_exact_probabilities up deck rules st).2)).1 =
        { (calculate_exact_probabilities up deck rules st).1 with
            from_cache := true }) := by
  intro up deck rules st
  constructor
  · intro hnot
    have h1 : st.cache.lookup
        (generate_cache_key [up] (deck.remove_card up) rules) = none :=
      lookup_eq_none_of_not_mem _ st.cache hnot
    simp only [calculate_exact_probabilities, h1]
    rfl
  · cases hcase : st.cache.lookup
        (generate_cache_key [up] (deck.remove_card up) rules) with
    | some r =>
      simp only [calculate_exact_probabilities, hcase]
    | none =>
      simp only [calculate_exact_probabilities, hcase]
      simp [List.lookup]

/-- Witness for C9 on a warm cache whose single key (0) does not collide
with the query, and on an immediate repeat of the same query. -/
theorem C9_witness :
    generate_cache_key [7] (deckCollisionB.remove_card 7) rulesS17 ∉
        stateKeyZero.cache.map Prod.fst ∧
    (calculate_exact_probabilities 7 deckCollisionB rulesS17 stateKeyZero).1 =
      (calculate_exact_probabilities 7 deckCollisionB rulesS17 emptyState).1 ∧
    (calculate_exact_probabilities 7 deckCollisionB rulesS17
        ((calculate_exact_probabilities 7 deckCollisionB rulesS17
          emptyState).2)).1 =
      { (calculate_exact_probabilities 7 deckCollisionB rulesS17
          emptyState).1 with from_cache := true } :=
  ⟨by decide,
    (C9_cache_transparent_amended 7 deckCollisionB rulesS17 stateKeyZero).1
      (by decide),
    (C9_cache_transparent_amended 7 deckCollisionB rulesS17 emptyState).2⟩

theorem computeExactProbs_eq (up : ℤ) (w : DeckComposition) (rules : RulesConfig) :
    computeExactProbs up w rules =
      if up = 1 ∨ up = 10 then
        if 0 < w.total_cards then
          if ((w.get_cards_for_rank (if up = 1 then 10 else 1) : ℚ) /
              (w.total_cards : ℚ)) < 1 then
            { prob_blackjack := (w.get_cards_for_rank (if up = 1 then 10 else 1) : ℚ) /
                (w.total_cards : ℚ)
              prob_17 := (calculate_recursive [up]
                  (w.remove_card (if up = 1 then 10 else 1)) rules).prob_17 *
                (1 - (w.get_cards_for_rank (if up = 1 then 10 else 1) : ℚ) /
                  (w.total_cards : ℚ))
              prob_18 := (calculate_recursive [up]
                  (w.remove_card (if up = 1 then 10 else 1)) rules).prob_18 *
                (1 - (w.get_cards_for_rank (if up = 1 then 10 else 1) : ℚ) /
                  (w.total_cards : ℚ))
              prob_19 := (calculate_recursive [up]
                  (w.remove_card (if up = 1 then 10 else 1)) rules).prob_19 *
                (1 - (w.get_cards_for_rank (if up = 1 then 10 else 1) : ℚ) /
                  (w.total_cards : ℚ))
              prob_20 := (calculate_recursive [up]
                  (w.remove_card (if up = 1 then 10 else 1)) rules).prob_20 *
                (1 - (w.get_cards_for_rank (if up = 1 then 10 else 1) : ℚ) /
                  (w.total_cards : ℚ))
              prob_21 := (calculate_recursive [up]
                  (w.remove_card (if up = 1 then 10 else 1)) rules).prob_21 *
                (1 - (w.get_cards_for_rank (if up = 1 then 10 else 1) : ℚ) /
                  (w.total_cards : ℚ))
              prob_bust := (calculate_recursive [up]
                  (w.remove_card (if up = 1 then 10 else 1)) rules).prob_bust *
                (1 - (w.get_cards_for_rank (if up = 1 then 10 else 1) : ℚ) /
                  (w.total_cards : ℚ))
              recursive_calls := (calculate_recursive [up]
                  (w.remove_card (if up = 1 then 10 else 1)) rules).recursive_calls + 1 }
          else
            { prob_blackjack := (w.get_cards_for_rank (if up = 1 then 10 else 1) : ℚ) /
                (w.total_cards : ℚ) }
        else {}
      else calculate_recursive [up] w rules := rfl

theorem computeExactProbs_pbj (up : ℤ) (w : DeckComposition)
    (rules : RulesConfig) (hup : up = 1 ∨ up = 10) :
    (computeExactProbs up w rules).prob_blackjack =
      if 0 < w.total_cards then
        (w.get_cards_for_rank (if up = 1 then 10 else 1) : ℚ) / (w.total_cards : ℚ)
      else 0 := by
  rw [computeExactProbs_eq, if_pos hup]
  by_cases hT : 0 < w.total_cards
  · rw [if_pos hT, if_pos hT]
    by_cases hp : ((w.get_cards_for_rank (if up = 1 then 10 else 1) : ℚ) /
        (w.total_cards : ℚ)) < 1
    · rw [if_pos hp]
    · rw [if_neg hp]
  · rw [if_neg hT, if_neg hT]

theorem slotAux_le_sum (l : List ℤ) (hnn : ∀ c ∈ l, 0 ≤ c) :
    ∀ i, slotAux l i ≤ l.sum := by
  induction l with
  | nil => intro i; simp [slotAux_nil]
  | cons c t ih =>
    intro i
    have hc := hnn c (List.mem_cons_self _ _)
    have ht : ∀ d ∈ t, (0 : ℤ) ≤ d := fun d hd => hnn d (List.mem_cons_of_mem c hd)
    have hts := list_sum_nonneg t ht
    rw [slotAux_cons]
    simp only [List.sum_cons]
    by_cases hi : i = 0
    · rw [if_pos hi]; omega
    · rw [if_neg hi]
      have := ih ht (i - 1)
      omega

theorem cold_call_eq (up : ℤ) (deck : DeckComposition) (rules : RulesConfig) :
    (calculate_exact_probabilities up deck rules emptyState).1 =
      computeExactProbs up (deck.remove_card up) rules := rfl

/-- Claim C10: calculate_exact_probabilities removes the upcard from a
copy of the supplied deck before any probability is computed: provided the
deck still contains the upcard, prob_blackjack for an Ace upcard equals
the ten-count divided by total_cards - 1 of the supplied deck, and
symmetrically for a ten upcard it equals the ace-count divided by
total_cards - 1 (the caller's deck itself is untouched, which the pure
embedding renders automatic). -/
theorem C10_upcard_removed :
    ∀ (deck : DeckComposition) (rules : RulesConfig), deck.Inv →
      (0 < deck.get_cards_for_rank 1 →
        (calculate_exact_probabilities 1 deck rules
            emptyState).1.prob_blackjack =
          (deck.get_ten_cards : ℚ) / ((deck.total_cards - 1 : ℤ) : ℚ)) ∧
      (0 < deck.get_cards_for_rank 10 →
        (calculate_exact_probabilities 10 deck rules
            emptyState).1.prob_blackjack =
          (deck.get_cards_for_rank 1 : ℚ) / ((deck.total_cards - 1 : ℤ) : ℚ)) := by
  intro deck rules hInv
  obtain ⟨hlen, hsum, hnn⟩ := hInv
  constructor
  · intro hpos
    have hslot0 : 0 < deck.slot 0 := by
      rw [DeckComposition.get_cards_for_rank, if_pos rfl] at hpos
      exact hpos
    have hw : deck.remove_card 1 = deck.decSlot 0 := by
      rw [DeckComposition.remove_card, if_pos (by norm_num), if_neg (by norm_num),
        show ((1 : ℤ) - 1) = 0 from by norm_num, if_pos hslot0]
    have htens : (deck.decSlot 0).get_cards_for_rank 10 = deck.get_ten_cards := by
      rw [DeckComposition.get_cards_ten]
      unfold DeckComposition.get_ten_cards
      rw [DeckComposition.decSlot_slot_ne deck 0 9 (by omega),
        DeckComposition.decSlot_slot_ne deck 0 10 (by omega),
        DeckComposition.decSlot_slot_ne deck 0 11 (by omega),
        DeckComposition.decSlot_slot_ne deck 0 12 (by omega)]
    have htot : (deck.decSlot 0).total_cards = deck.total_cards - 1 := rfl
    rw [cold_call_eq, hw, computeExactProbs_pbj 1 _ rules (Or.inl rfl),
      if_pos rfl, htens, htot]
    by_cases hT : 0 < deck.total_cards - 1
    · rw [if_pos hT]
    · rw [if_neg hT]
      have hle : deck.slot 0 ≤ deck.cards.sum := slotAux_le_sum deck.cards hnn 0
      have hz : deck.total_cards - 1 = 0 := by omega
      rw [hz]
      norm_num
  · intro hpos
    have htens0 : 0 < deck.get_ten_cards := by
      rw [DeckComposition.get_cards_ten] at hpos
      exact hpos
    have hnn9 : 0 ≤ deck.slot 9 := slotAux_nonneg deck.cards hnn 9
    have hnn10 : 0 ≤ deck.slot 10 := slotAux_nonneg deck.cards hnn 10
    have hnn11 : 0 ≤ deck.slot 11 := slotAux_nonneg deck.cards hnn 11
    have hnn12 : 0 ≤ deck.slot 12 := slotAux_nonneg deck.cards hnn 12
    rw [cold_call_eq]
    rw [DeckComposition.remove_card, if_pos (by omega), if_pos rfl]
    have step : ∀ j : ℤ, 9 ≤ j → j ≤ 12 → 0 < deck.slot j →
        (computeExactProbs 10 (deck.decSlot j) rules).prob_blackjack =
          (deck.get_cards_for_rank 1 : ℚ) / ((deck.total_cards - 1 : ℤ) : ℚ) := by
      intro j hj9 hj12 hjpos
      have hace : (deck.decSlot j).get_cards_for_rank 1 =
          deck.get_cards_for_rank 1 := by
        rw [DeckComposition.get_cards_for_rank, if_pos rfl,
          DeckComposition.get_cards_for_rank, if_pos rfl]
        exact DeckComposition.decSlot_slot_ne deck j 0 (by omega)
      have htot : (deck.decSlot j).total_cards = deck.total_cards - 1 := rfl
      rw [computeExactProbs_pbj 10 _ rules (Or.inr rfl),
        show (if (10 : ℤ) = 1 then (10 : ℤ) else 1) = 1 from by norm_num,
        hace, htot]
      by_cases hT : 0 < deck.total_cards - 1
      · rw [if_pos hT]
      · rw [if_neg hT]
        have hle : deck.slot j ≤ deck.cards.sum := slotAux_le_sum deck.cards hnn j
        have hz : deck.total_cards - 1 = 0 := by omega
        rw [hz]
        norm_num
    by_cases h9 : 0 < deck.slot 9
    · rw [if_pos h9]; exact step 9 (by omega) (by omega) h9
    · rw [if_neg h9]
      by_cases hA : 0 < deck.slot 10
      · rw [if_pos hA]; exact step 10 (by omega) (by omega) hA
      · rw [if_neg hA]
        by_cases hB : 0 < deck.slot 11
        · rw [if_pos hB]; exact step 11 (by omega) (by omega) hB
        · rw [if_neg hB]
          by_cases hC : 0 < deck.slot 12
          · rw [if_pos hC]; exact step 12 (by omega) (by omega) hC
          · unfold DeckComposition.get_ten_cards at htens0
            omega

/-- Witness for C10 on a deck of one ace and one ten: the hole card is
certainly the ten, prob_blackjack = 1/1. -/
theorem C10_witness :
    deckAceTen.Inv ∧ 0 < deckAceTen.get_cards_for_rank 1 ∧
    (calculate_exact_probabilities 1 deckAceTen rulesS17
        emptyState).1.prob_blackjack =
      (deckAceTen.get_ten_cards : ℚ) / ((deckAceTen.total_cards - 1 : ℤ) : ℚ) :=
  ⟨by decide, by decide,
    (C10_upcard_removed deckAceTen rulesS17 (by decide)).1 (by decide)⟩

/-!
C5: calculate_double_ev_recursive.  Sentinel -2 off two-card hands; on a
two-card hand the result is the draw-probability-weighted sum, over ranks
with a positive remaining count, of twice the stand EV of the three-card
hand against the deck with that card drawn.  On a well-formed deck the
accumulated probability mass is exactly 1, so the code's renormalisation
branch is skipped and the raw weighted sum is returned.
-/

theorem tdiv24 : Int.tdiv 2 4 = 0 := by decide

theorem tmod24 : Int.tmod 2 4 = 2 := by decide

theorem tdiv14 : Int.tdiv 1 4 = 0 := by decide

theorem tmod14 : Int.tmod 1 4 = 1 := by decide

/-- Dealer node: hand [10,10] on an empty working deck stands on 20. -/
theorem evalC5a : calcRec rulesS17 1 [10, 10] ⟨[0,0,0,0,0,0,0,0,0,0,0,0,0], 0⟩ =
    { prob_20 := 1, recursive_calls := 1 } := by
  rw [calcRec_unfold]
  norm_num [calculate_dealer_total_and_soft, dealer_must_hit, rulesS17_h17]

/-- Dealer node: upcard ten against a single remaining jack reaches 20. -/
theorem evalC5b : calcRec rulesS17 2 [10] ⟨[0,0,0,0,0,0,0,0,0,0,1,0,0], 1⟩ =
    { prob_20 := 1, recursive_calls := 2 } := by
  rw [calcRec_unfold]
  norm_num [calculate_dealer_total_and_soft, dealer_must_hit, rankList,
    DeckComposition.get_cards_for_rank, DeckComposition.get_ten_cards,
    DeckComposition.get_probability, DeckComposition.remove_card,
    DeckComposition.decSlot, DeckComposition.slot, slotAux, setAux,
    addBranch, scaleProbs, evalC5a]

/-- Dealer node: hand [10,5] must hit an empty working deck: zero mass. -/
theorem evalC5c : calcRec rulesS17 1 [10, 5] ⟨[0,0,0,0,0,0,0,0,0,0,0,0,0], 0⟩ =
    { recursive_calls := 1 } := by
  rw [calcRec_unfold]
  norm_num [calculate_dealer_total_and_soft, dealer_must_hit, rankList,
    DeckComposition.get_cards_for_rank, DeckComposition.get_ten_cards,
    DeckComposition.get_probability, addBranch, scaleProbs,
    DeckComposition.slot, slotAux]

/-- Dealer node: upcard ten against a single five hits to an empty deck. -/
theorem evalC5d : calcRec rulesS17 2 [10] ⟨[0,0,0,0,1,0,0,0,0,0,0,0,0], 1⟩ =
    { recursive_calls := 2 } := by
  rw [calcRec_unfold]
  norm_num [calculate_dealer_total_and_soft, dealer_must_hit, rankList,
    DeckComposition.get_cards_for_rank, DeckComposition.get_ten_cards,
    DeckComposition.get_probability, DeckComposition.remove_card,
    DeckComposition.decSlot, DeckComposition.slot, slotAux, setAux,
    addBranch, scaleProbs, evalC5c]

theorem hand555 : BJLogicCore.calculate_hand_value [5, 5, 5] =
    { cards := [5, 5, 5], total := 15, is_soft := false, can_split := false,
      is_blackjack := false, is_busted := false } := by decide

theorem hand5510 : BJLogicCore.calculate_hand_value [5, 5, 10] =
    { cards := [5, 5, 10], total := 20, is_soft := false, can_split := false,
      is_blackjack := false, is_busted := false } := by decide

theorem fuelC5a : deckFuel ⟨[0,0,0,0,0,0,0,0,0,0,1,0,0], 1⟩ = 2 := by
  norm_num [deckFuel]

theorem fuelC5b : deckFuel ⟨[0,0,0,0,1,0,0,0,0,0,0,0,0], 1⟩ = 2 := by
  norm_num [deckFuel]

/-- Stand EV of the doubled hand [5,5,5] (15) against upcard ten when the
remaining deck is two tens less the drawn five: dealer reaches 20, EV -1. -/
theorem sev5 : calculate_stand_ev_recursive [5, 5, 5] 10 (deckDouble.draw 5)
    rulesS17 = -1 := by
  norm_num [calculate_stand_ev_recursive, convert_from_deck_state, deckDouble,
    DeckState.draw, rankList, computeExactProbs, calculate_recursive,
    DeckComposition.remove_card, DeckComposition.decSlot, DeckComposition.slot,
    slotAux, setAux, DeckComposition.get_cards_for_rank,
    DeckComposition.get_ten_cards, fuelC5a, evalC5b, tdiv24, tmod24,
    calculate_stand_ev_from_exact_probs, hand555]

/-- Stand EV of the doubled hand [5,5,10] (20) against upcard ten when the
dealer runs the deck dry: all-zero distribution, EV 0. -/
theorem sev10 : calculate_stand_ev_recursive [5, 5, 10] 10 (deckDouble.draw 10)
    rulesS17 = 0 := by
  norm_num [calculate_stand_ev_recursive, convert_from_deck_state, deckDouble,
    DeckState.draw, rankList, computeExactProbs, calculate_recursive,
    DeckComposition.remove_card, DeckComposition.decSlot, DeckComposition.slot,
    slotAux, setAux, DeckComposition.get_cards_for_rank,
    DeckComposition.get_ten_cards, fuelC5b, evalC5d, tdiv14, tmod14,
    calculate_stand_ev_from_exact_probs, hand5510]

/-- Ranks filtered out with a zero summand can be dropped from a sum. -/
theorem sum_filter_eq_sum_of_zero (p : ℤ → Bool) (g : ℤ → ℚ) :
    ∀ l : List ℤ, (∀ r ∈ l, p r = false → g r = 0) →
      ((l.filter p).map g).sum = (l.map g).sum := by
  intro l
  induction l with
  | nil => intro _; rfl
  | cons r t ih =>
    intro h
    simp only [List.filter_cons]
    by_cases hp : p r = true
    · simp only [hp, eq_self_iff_true, if_true, List.map_cons, List.sum_cons]
      rw [ih fun d hd hf => h d (List.mem_cons_of_mem r hd) hf]
    · have hpf : p r = false := by simpa using hp
      simp only [hpf, Bool.false_eq_true, if_false]
      rw [List.map_cons, List.sum_cons,
        h r (List.mem_cons_self _ _) hpf, zero_add]
      exact ih fun d hd hf => h d (List.mem_cons_of_mem r hd) hf

theorem sum_map_div (g : ℤ → ℚ) (T : ℚ) :
    ∀ l : List ℤ, (l.map fun r => g r / T).sum = (l.map g).sum / T := by
  intro l
  induction l with
  | nil => simp
  | cons r t ih =>
    simp only [List.map_cons, List.sum_cons, ih]
    rw [add_div]

theorem cast_sum_map (c : ℤ → ℤ) :
    ∀ l : List ℤ,
      (((l.map c).sum : ℤ) : ℚ) = (l.map fun r => ((c r : ℤ) : ℚ)).sum := by
  intro l
  induction l with
  | nil => simp
  | cons r t ih =>
    simp only [List.map_cons, List.sum_cons, Int.cast_add, ih]

/-- The double-EV accumulation loop, in closed form: the fold adds the
weighted doubled stand EVs and the drawn probability mass over exactly the
ranks with a positive remaining count (the card value drawn for rank 10 is
10 itself, so the appended card is always the rank). -/
theorem double_ev_foldl (hand : List ℤ) (up : ℤ) (deck : DeckState)
    (rules : RulesConfig) :
    ∀ (l : List ℤ) (acc : ℚ × ℚ),
      l.foldl (fun acc next_card_rank =>
          if deck.cards_remaining next_card_rank ≤ 0 then acc
          else
            (acc.1 + (deck.cards_remaining next_card_rank : ℚ) /
                (deck.total_cards : ℚ) *
              (calculate_stand_ev_recursive
                (hand ++ [if next_card_rank = 10 then (10 : ℤ) else next_card_rank])
                up (deck.draw next_card_rank) rules * 2),
             acc.2 + (deck.cards_remaining next_card_rank : ℚ) /
                (deck.total_cards : ℚ))) acc =
        (acc.1 + ((l.filter fun r => 0 < deck.cards_remaining r).map fun r =>
            ((deck.cards_remaining r : ℚ) / (deck.total_cards : ℚ)) *
              (2 * calculate_stand_ev_recursive (hand ++ [r]) up (deck.draw r)
                rules)).sum,
         acc.2 + ((l.filter fun r => 0 < deck.cards_remaining r).map fun r =>
            (deck.cards_remaining r : ℚ) / (deck.total_cards : ℚ)).sum) := by
  intro l
  induction l with
  | nil => intro acc; simp
  | cons r t ih =>
    intro acc
    rw [List.foldl_cons]
    simp only [List.filter_cons]
    by_cases hc : deck.cards_remaining r ≤ 0
    · rw [if_pos hc]
      have hd : (decide (0 < deck.cards_remaining r)) = false := by
        simp only [decide_eq_false_iff_not]
        omega
      simp only [hd, Bool.false_eq_true, if_false]
      exact ih acc
    · rw [if_neg hc]
      have hd : (decide (0 < deck.cards_remaining r)) = true := by
        simp only [decide_eq_true_eq]
        omega
      have hcv : (if r = 10 then (10 : ℤ) else r) = r := by
        split_ifs with h
        · exact h.symm
        · rfl
      simp only [hd, eq_self_iff_true, if_true, List.map_cons, List.sum_cons]
      rw [hcv, ih]
      simp only [Prod.mk.injEq]
      constructor
      · ring
      · ring

/-- C5: calculate_double_ev_recursive returns the sentinel -2 on any hand
without exactly two cards, and on a two-card hand over a well-formed deck
(nonnegative counts on ranks 1-10 summing to the positive stored total) it
returns the draw-probability-weighted sum, over every rank with a nonzero
remaining count, of twice the stand EV of the resulting three-card hand
against the deck with that card removed. -/
theorem C5_double_ev_contract :
    (∀ (player_hand : List ℤ) (up : ℤ) (deck : DeckState) (rules : RulesConfig),
      player_hand.length ≠ 2 →
      calculate_double_ev_recursive player_hand up deck rules = -2) ∧
    (∀ (player_hand : List ℤ) (up : ℤ) (deck : DeckState) (rules : RulesConfig),
      player_hand.length = 2 → deck.Inv →
      calculate_double_ev_recursive player_hand up deck rules =
        ((rankList.filter fun r => 0 < deck.cards_remaining r).map fun r =>
          ((deck.cards_remaining r : ℚ) / (deck.total_cards : ℚ)) *
            (2 * calculate_stand_ev_recursive (player_hand ++ [r]) up
              (deck.draw r) rules)).sum) := by
  constructor
  · intro player_hand up deck rules hlen
    simp only [calculate_double_ev_recursive]
    rw [if_pos hlen]
  · intro player_hand up deck rules hlen hInv
    obtain ⟨hnn, htot, hpos⟩ := hInv
    have hP : ((rankList.filter fun r => 0 < deck.cards_remaining r).map fun r =>
        (deck.cards_remaining r : ℚ) / (deck.total_cards : ℚ)).sum = 1 := by
      rw [sum_filter_eq_sum_of_zero]
      · rw [sum_map_div (fun r => ((deck.cards_remaining r : ℤ) : ℚ)) _ rankList]
        rw [← cast_sum_map deck.cards_remaining rankList]
        rw [← htot]
        rw [div_self]
        intro h0
        rw [Int.cast_eq_zero] at h0
        omega
      · intro r hr hf
        simp only [decide_eq_false_iff_not] at hf
        have := hnn r hr
        have hz : deck.cards_remaining r = 0 := by omega
        rw [hz]
        norm_num
    simp only [calculate_double_ev_recursive]
    rw [if_neg (show ¬ (player_hand.length ≠ 2) from fun hk => hk hlen)]
    rw [double_ev_foldl player_hand up deck rules rankList (0, 0)]
    simp only [zero_add]
    rw [hP]
    split_ifs with hcond
    · exact absurd hcond (by norm_num)
    · rfl

/-- Witness for C5: the three-card hand [5,5,5] gets the sentinel -2, and
doubling [5,5] against upcard ten on the two-tens-one-five deck averages
(1/3)(2(-1)) + (2/3)(2(0)) = -2/3. -/
theorem C5_witness :
    calculate_double_ev_recursive [5, 5, 5] 10 deckDouble rulesS17 = -2 ∧
    calculate_double_ev_recursive [5, 5] 10 deckDouble rulesS17 = -2/3 := by
  constructor
  · exact C5_double_ev_contract.1 [5, 5, 5] 10 deckDouble rulesS17 (by decide)
  · have h := C5_double_ev_contract.2 [5, 5] 10 deckDouble rulesS17 rfl (by decide)
    rw [h]
    norm_num [rankList, deckDouble_counts, deckDouble_total, List.filter,
      sev5, sev10]

end BJTracker
